import Mathlib

/-!
# Macro collection of the clang refactoring back end

A shallow embedding of `CollectMacrosPreprocessorCallbacks`
(`src/tools/clangrefactoringbackend/source/collectmacrospreprocessorcallbacks.h`).

The callbacks object mutates seven containers and one flag.  Here the object is a
record of lists, every callback is a function from record to record, and the
compiler front end (tokens, source locations, macro directives, the preprocessor
queried at the end of the unit) is data carried by the events or a read-only
record of functions.  The standard algorithms the callbacks call
(`std::lower_bound`, `std::find`, `std::stable_partition`, `std::inplace_merge`,
`vector::insert`, `vector::erase`) are written out as list programs.
-/

namespace ClangBackEnd

/-! ## Data model -/

/-- Modelled from the spec: `FilePathId` (declared in `filepathid.h`, which is not part
of the sources) is an integer identifier compared by value; the default constructed
id is `-1` and an id is valid when it is not negative. -/
structure FilePathId where
  filePathId : Int
deriving DecidableEq

/-- The default constructed, invalid id. -/
def FilePathId.invalid : FilePathId := ⟨-1⟩

/-- Validity test `FilePathId::isValid`. -/
def FilePathId.isValid (id : FilePathId) : Bool := decide (0 ≤ id.filePathId)

abbrev FilePathIds := List FilePathId

/-- Modelled from the spec: `UsedMacro` (declared in `usedmacro.h`, which is not part of
the sources) is the pair `(macroName, fileId)`. -/
structure UsedMacro where
  macroName : String
  filePathId : FilePathId
deriving DecidableEq

abbrev UsedMacros := List UsedMacro

/-- Sort key of a used entry: the name first, the file id second. -/
def UsedMacro.key (u : UsedMacro) : Lex (List Char × Int) :=
  toLex (u.macroName.toList, u.filePathId.filePathId)

/-- Modelled from the spec: used entries are ordered by `(macroName, fileId)`, names
character by character (a proper start of a name comes before the name) and ids by value;
`operator==` is equality of both fields. -/
instance UsedMacro.instLinearOrder : LinearOrder UsedMacro :=
  LinearOrder.lift' UsedMacro.key (by
    rintro ⟨n₁, ⟨i₁⟩⟩ ⟨n₂, ⟨i₂⟩⟩ h
    have h2 : (n₁.toList, i₁) = (n₂.toList, i₂) := h
    simp only [Prod.mk.injEq] at h2
    obtain ⟨h3, rfl⟩ := h2
    have h4 : n₁ = n₂ := by
      cases n₁; cases n₂; simp only [String.toList] at h3; rw [h3]
    rw [h4])

/-- Record `FileInformation`: what is kept of a file that was entered. -/
structure FileInformation where
  filePathId : FilePathId
  size : Int
  lastModified : Int
deriving DecidableEq

abbrev FileInformations := List FileInformation

/-- Record `SourceDependency`: the including file and the included file. -/
structure SourceDependency where
  filePathId : FilePathId
  dependencyFilePathId : FilePathId
deriving DecidableEq

abbrev SourceDependencies := List SourceDependency

/-- Symbol identifier: `toSymbolIndex` reinterprets the address of the macro info. -/
abbrev SymbolIndex := Nat

/-- The kinds of occurrence that the macro callbacks record. -/
inductive SymbolType where
  | MacroDefinition
  | MacroUndefinition
  | MacroUsage
deriving DecidableEq

/-- Line and column of a position. -/
structure LineColumn where
  line : Nat
  column : Nat
deriving DecidableEq

/-- Record `SourceLocationEntry`: one occurrence of a symbol. -/
structure SourceLocationEntry where
  symbolId : SymbolIndex
  filePathId : FilePathId
  lineColumn : LineColumn
  symbolType : SymbolType
deriving DecidableEq

abbrev SourceLocationEntries := List SourceLocationEntry

/-- Record `SymbolEntry`: the unique symbol reference and the display name. -/
structure SymbolEntry where
  usr : String
  symbolName : String
deriving DecidableEq

/-- The symbol map, an `unordered_map` from symbol id to symbol entry, as an
association list; `find` and `emplace` below keep its keys unique. -/
abbrev SymbolEntries := List (SymbolIndex × SymbolEntry)

/-! ## The front end -/

/-- What the callbacks read of a `clang::FileEntry`.  The id is the one the file path
cache gives to the entry. -/
structure FileEntry where
  filePathId : FilePathId
  getSize : Int
  getModificationTime : Int
deriving DecidableEq

/-- What the callbacks read of a `clang::SourceLocation`: whether it is a file position,
the file entry the source manager resolves it to (if any), and its line and column. -/
structure SourceLocation where
  isFileID : Bool
  fileEntry : Option FileEntry
  line : Nat
  column : Nat
deriving DecidableEq

/-- What the callbacks read of a `clang::MacroInfo`: its address and the header guard
flag. -/
structure MacroInfo where
  address : Nat
  isUsedForHeaderGuard : Bool
deriving DecidableEq

/-- A `clang::MacroDirective` with the chain of its previous directives.  `first` is a
directive whose `getPrevious()` is null. -/
inductive MacroDirective where
  | first (macroInfo : Option MacroInfo) : MacroDirective
  | next (macroInfo : Option MacroInfo) (previous : MacroDirective) : MacroDirective
deriving DecidableEq

/-- Accessor `MacroDirective::getPrevious`. -/
def MacroDirective.getPrevious : MacroDirective → Option MacroDirective
  | .first _ => none
  | .next _ previous => some previous

/-- Accessor `MacroDirective::getMacroInfo`. -/
def MacroDirective.getMacroInfo : MacroDirective → Option MacroInfo
  | .first macroInfo => macroInfo
  | .next macroInfo _ => macroInfo

/-- What the callbacks read of a `clang::MacroDefinition`. -/
structure MacroDefinition where
  getLocalDirective : Option MacroDirective
  getMacroInfo : Option MacroInfo
deriving DecidableEq

/-- What the callbacks read of a `clang::Token` that names a macro. -/
structure Token where
  getName : String
  getLocation : SourceLocation
deriving DecidableEq

/-- The reasons of `clang::PPCallbacks::FileChangeReason`. -/
inductive FileChangeReason where
  | EnterFile
  | ExitFile
  | SystemHeaderPragma
  | RenameFile
deriving DecidableEq

/-- The services of the front end that the callbacks query: the macro info the
preprocessor has for a name when the unit ends, and `generateUSR` of the visitor base
class (`symbolsvisitorbase.h` is not part of the sources). -/
structure FrontEnd where
  getMacroInfo : String → Option MacroInfo
  generateUSR : String → SourceLocation → Option String

/-- Modelled from the spec: `filePathId` of the visitor base class
(`symbolsvisitorbase.h` is not part of the sources) gives the id of a file entry and the
invalid id when there is no entry. -/
def filePathIdOfEntry : Option FileEntry → FilePathId
  | some fileEntry => fileEntry.filePathId
  | none => FilePathId.invalid

/-- Modelled from the spec: `filePathId` of a source location is the id of the file entry
the location resolves to. -/
def filePathIdOfLocation (sourceLocation : SourceLocation) : FilePathId :=
  filePathIdOfEntry sourceLocation.fileEntry

/-- Line and column of a location, `lineColum` of the visitor base class. -/
def lineColum (sourceLocation : SourceLocation) : LineColumn :=
  ⟨sourceLocation.line, sourceLocation.column⟩

/-- Conversion `toSymbolIndex`: the address of the macro info. -/
def toSymbolIndex (macroInfo : MacroInfo) : SymbolIndex := macroInfo.address

/-! ## Standard algorithms -/

section Algorithms

variable {α : Type}

/-- The loop of `std::lower_bound` over the range `[first, first + len)` of `xs`: halve
the range, keep the upper part when the middle element is less than `value`. The first
argument bounds the number of rounds. -/
def lowerBoundLoop [LT α] [DecidableRel (fun a b : α => a < b)] (xs : List α) (value : α) :
    Nat → Nat → Nat → Nat
  | 0, first, _ => first
  | fuel + 1, first, len =>
    if len = 0 then first
    else
      let half := len / 2
      let middle := first + half
      match xs[middle]? with
      | some x =>
        if x < value then lowerBoundLoop xs value fuel (middle + 1) (len - half - 1)
        else lowerBoundLoop xs value fuel first half
      | none => first

/-- Binary search `std::lower_bound(xs.begin(), xs.end(), value)`, as an index. -/
def lowerBound [LT α] [DecidableRel (fun a b : α => a < b)] (xs : List α) (value : α) : Nat :=
  lowerBoundLoop xs value xs.length 0 xs.length

/-- Linear search `std::find(xs.begin(), xs.end(), value)`, as an index; the length of
the list stands for `end()`. -/
def find [DecidableEq α] (value : α) : List α → Nat
  | [] => 0
  | x :: xs => if x = value then 0 else find value xs + 1

/-- Insertion `vector::insert(position, value)`. -/
def vectorInsert (xs : List α) (position : Nat) (value : α) : List α :=
  xs.take position ++ value :: xs.drop position

/-- Removal `vector::erase(position, end())`. -/
def eraseToEnd (xs : List α) (position : Nat) : List α :=
  xs.take position

/-- The two groups of `std::stable_partition`: the elements that satisfy the predicate
and those that do not, each in the original order. -/
def stablePartitionGroups (p : α → Bool) : List α → List α × List α
  | [] => ([], [])
  | x :: xs =>
    let groups := stablePartitionGroups p xs
    if p x then (x :: groups.1, groups.2) else (groups.1, x :: groups.2)

/-- Algorithm `std::stable_partition`: the rearranged range and the partition point. -/
def stablePartition (p : α → Bool) (xs : List α) : List α × Nat :=
  let groups := stablePartitionGroups p xs
  (groups.1 ++ groups.2, groups.1.length)

/-- Inner loop of the merge: `x :: xs` is the rest of the first run, the argument is the
rest of the second run, `cont` merges `xs` with what is left of the second run. -/
def mergeInto [LT α] [DecidableRel (fun a b : α => a < b)] (x : α) (xs : List α)
    (cont : List α → List α) : List α → List α
  | [] => x :: xs
  | y :: ys => if y < x then y :: mergeInto x xs cont ys else x :: cont (y :: ys)

/-- Stable merge of two runs: an element of the second run goes first only when it is
less than the head of the first run. -/
def merge [LT α] [DecidableRel (fun a b : α => a < b)] : List α → List α → List α
  | [], ys => ys
  | x :: xs, ys => mergeInto x xs (merge xs) ys

/-- Algorithm `std::inplace_merge(begin, middle, end)`. -/
def inplaceMerge [LT α] [DecidableRel (fun a b : α => a < b)] (xs : List α) (middle : Nat) :
    List α :=
  merge (xs.take middle) (xs.drop middle)

/-- Whether `pattern` starts the list `text`. -/
def startsWith : List Char → List Char → Bool
  | _, [] => true
  | [], _ :: _ => false
  | c :: text, p :: pattern => c = p && startsWith text pattern

/-- Whether `pattern` occurs in `text` as a contiguous run of characters. -/
def containsChars (pattern : List Char) : List Char → Bool
  | [] => startsWith [] pattern
  | c :: text => startsWith (c :: text) pattern || containsChars pattern text

end Algorithms

/-- Modelled from the spec: `contains` of the string class (`smallstring.h` is not part
of the sources) is a case sensitive substring test. -/
def contains (text pattern : String) : Bool :=
  containsChars pattern.toList text.toList

/-! ## The symbol map -/

/-- Lookup `unordered_map::find`: the entry stored for a symbol id. -/
def findSymbolEntry : SymbolEntries → SymbolIndex → Option SymbolEntry
  | [], _ => none
  | (key, entry) :: rest, globalId =>
    if key = globalId then some entry else findSymbolEntry rest globalId

/-- Insertion `unordered_map::emplace`: nothing happens when the key is present. -/
def emplaceSymbolEntry (symbolEntries : SymbolEntries) (globalId : SymbolIndex)
    (entry : SymbolEntry) : SymbolEntries :=
  match findSymbolEntry symbolEntries globalId with
  | some _ => symbolEntries
  | none => symbolEntries ++ [(globalId, entry)]

/-- The keys of the symbol map. -/
def symbolKeys (symbolEntries : SymbolEntries) : List SymbolIndex :=
  symbolEntries.map Prod.fst

/-! ## The callbacks -/

/-- The static `addUsedMacro(usedMacro, usedMacros)`: binary search, then insertion unless
the entry found is equal. -/
def addUsedMacro (usedMacro : UsedMacro) (usedMacros : UsedMacros) : UsedMacros :=
  let found := lowerBound usedMacros usedMacro
  if found = usedMacros.length ∨ usedMacros[found]? ≠ some usedMacro then
    vectorInsert usedMacros found usedMacro
  else usedMacros

/-- The walk of `firstMacroInfo` along the previous links, down to the directive that
has no previous one. -/
def firstDirective : MacroDirective → MacroDirective
  | .first macroInfo => .first macroInfo
  | .next _ previous => firstDirective previous

/-- The static `firstMacroInfo`: the macro info of the oldest directive of the chain, and
null for a null directive. -/
def firstMacroInfo : Option MacroDirective → Option MacroInfo
  | some macroDirective => (firstDirective macroDirective).getMacroInfo
  | none => none

/-- The members of the callbacks object: the collections it fills and the flag that
suppresses the next dependency. -/
structure CollectMacrosPreprocessorCallbacks where
  m_maybeUsedMacros : UsedMacros
  m_sourceDependencies : SourceDependencies
  m_symbolEntries : SymbolEntries
  m_sourceLocationEntries : SourceLocationEntries
  m_sourceFiles : FilePathIds
  m_usedMacros : UsedMacros
  m_fileInformations : FileInformations
  m_skipInclude : Bool
deriving DecidableEq

namespace CollectMacrosPreprocessorCallbacks

/-- The object as constructed: every collection empty, the flag clear. -/
def initial : CollectMacrosPreprocessorCallbacks :=
  ⟨[], [], [], [], [], [], [], false⟩

/-- Member `addSourceFile`: linear search for the id, insertion at the position found
unless the id is there. -/
def addSourceFile (self : CollectMacrosPreprocessorCallbacks) (file : FileEntry) :
    CollectMacrosPreprocessorCallbacks :=
  let id := filePathIdOfEntry (some file)
  let found := find id self.m_sourceFiles
  if found = self.m_sourceFiles.length ∨ self.m_sourceFiles[found]? ≠ some id then
    { self with m_sourceFiles := vectorInsert self.m_sourceFiles found id }
  else self

/-- Member `addSourceDependency`: one more edge at the end of the list. -/
def addSourceDependency (self : CollectMacrosPreprocessorCallbacks) (file : FileEntry)
    (includeLocation : SourceLocation) : CollectMacrosPreprocessorCallbacks :=
  let includeFilePathId := filePathIdOfLocation includeLocation
  let includedFilePathId := filePathIdOfEntry (some file)
  { self with
    m_sourceDependencies := self.m_sourceDependencies ++ [⟨includeFilePathId, includedFilePathId⟩] }

/-- Member `addMacroAsSymbol`. -/
def addMacroAsSymbol (frontEnd : FrontEnd) (self : CollectMacrosPreprocessorCallbacks)
    (macroNameToken : Token) (macroInfo : Option MacroInfo) (symbolType : SymbolType) :
    CollectMacrosPreprocessorCallbacks :=
  let sourceLocation := macroNameToken.getLocation
  match macroInfo with
  | none => self
  | some info =>
    if sourceLocation.isFileID then
      let fileId := filePathIdOfLocation sourceLocation
      if fileId.isValid then
        let macroName := macroNameToken.getName
        let globalId := toSymbolIndex info
        let symbolEntries :=
          match findSymbolEntry self.m_symbolEntries globalId with
          | some _ => self.m_symbolEntries
          | none =>
            match frontEnd.generateUSR macroName sourceLocation with
            | some usr => emplaceSymbolEntry self.m_symbolEntries globalId ⟨usr, macroName⟩
            | none => self.m_symbolEntries
        { self with
          m_symbolEntries := symbolEntries
          m_sourceLocationEntries :=
            self.m_sourceLocationEntries ++
              [⟨globalId, fileId, lineColum sourceLocation, symbolType⟩] }
      else self
    else self

/-- Member `addUsedMacro(macroNameToken, macroDefinition)`: the entry goes to the used
container when the definition has a macro info and to the maybe used container
otherwise. -/
def addUsedMacro (self : CollectMacrosPreprocessorCallbacks) (macroNameToken : Token)
    (macroDefinition : MacroDefinition) : CollectMacrosPreprocessorCallbacks :=
  let usedMacro : UsedMacro :=
    ⟨macroNameToken.getName, filePathIdOfLocation macroNameToken.getLocation⟩
  match macroDefinition.getMacroInfo with
  | some _ => { self with m_usedMacros := ClangBackEnd.addUsedMacro usedMacro self.m_usedMacros }
  | none =>
    { self with
      m_maybeUsedMacros := ClangBackEnd.addUsedMacro usedMacro self.m_maybeUsedMacros }

/-- Callback `FileChanged`. -/
def FileChanged (self : CollectMacrosPreprocessorCallbacks) (sourceLocation : SourceLocation)
    (reason : FileChangeReason) : CollectMacrosPreprocessorCallbacks :=
  if reason = FileChangeReason.EnterFile then
    match sourceLocation.fileEntry with
    | some fileEntry =>
      addSourceFile
        { self with
          m_fileInformations :=
            self.m_fileInformations ++
              [⟨filePathIdOfEntry (some fileEntry), fileEntry.getSize,
                fileEntry.getModificationTime⟩] }
        fileEntry
    | none => self
  else self

/-- Callback `InclusionDirective`. -/
def InclusionDirective (self : CollectMacrosPreprocessorCallbacks)
    (hashLocation : SourceLocation) (file : Option FileEntry) :
    CollectMacrosPreprocessorCallbacks :=
  let recorded :=
    if !self.m_skipInclude then
      match file with
      | some fileEntry => addSourceDependency self fileEntry hashLocation
      | none => self
    else self
  { recorded with m_skipInclude := false }

/-- Callback `FileNotFound`. -/
def FileNotFound (self : CollectMacrosPreprocessorCallbacks) :
    CollectMacrosPreprocessorCallbacks :=
  { self with m_skipInclude := true }

/-- Callback `Ifndef`. -/
def Ifndef (frontEnd : FrontEnd) (self : CollectMacrosPreprocessorCallbacks)
    (macroNameToken : Token) (macroDefinition : MacroDefinition) :
    CollectMacrosPreprocessorCallbacks :=
  addMacroAsSymbol frontEnd (addUsedMacro self macroNameToken macroDefinition) macroNameToken
    (firstMacroInfo macroDefinition.getLocalDirective) SymbolType.MacroUsage

/-- Callback `Ifdef`. -/
def Ifdef (frontEnd : FrontEnd) (self : CollectMacrosPreprocessorCallbacks)
    (macroNameToken : Token) (macroDefinition : MacroDefinition) :
    CollectMacrosPreprocessorCallbacks :=
  addMacroAsSymbol frontEnd (addUsedMacro self macroNameToken macroDefinition) macroNameToken
    (firstMacroInfo macroDefinition.getLocalDirective) SymbolType.MacroUsage

/-- Callback `Defined`. -/
def Defined (frontEnd : FrontEnd) (self : CollectMacrosPreprocessorCallbacks)
    (macroNameToken : Token) (macroDefinition : MacroDefinition) :
    CollectMacrosPreprocessorCallbacks :=
  addMacroAsSymbol frontEnd (addUsedMacro self macroNameToken macroDefinition) macroNameToken
    (firstMacroInfo macroDefinition.getLocalDirective) SymbolType.MacroUsage

/-- Callback `MacroDefined`. -/
def MacroDefined (frontEnd : FrontEnd) (self : CollectMacrosPreprocessorCallbacks)
    (macroNameToken : Token) (macroDirective : Option MacroDirective) :
    CollectMacrosPreprocessorCallbacks :=
  addMacroAsSymbol frontEnd self macroNameToken (firstMacroInfo macroDirective)
    SymbolType.MacroDefinition

/-- Callback `MacroUndefined`. -/
def MacroUndefined (frontEnd : FrontEnd) (self : CollectMacrosPreprocessorCallbacks)
    (macroNameToken : Token) (macroDefinition : MacroDefinition) :
    CollectMacrosPreprocessorCallbacks :=
  addMacroAsSymbol frontEnd self macroNameToken
    (firstMacroInfo macroDefinition.getLocalDirective) SymbolType.MacroUndefinition

/-- Callback `MacroExpands`. -/
def MacroExpands (frontEnd : FrontEnd) (self : CollectMacrosPreprocessorCallbacks)
    (macroNameToken : Token) (macroDefinition : MacroDefinition) :
    CollectMacrosPreprocessorCallbacks :=
  addMacroAsSymbol frontEnd (addUsedMacro self macroNameToken macroDefinition) macroNameToken
    (firstMacroInfo macroDefinition.getLocalDirective) SymbolType.MacroUsage

/-- The predicate of `filterOutHeaderGuards`: the name has no macro info, or its macro
info is not used for a header guard. -/
def notHeaderGuard (frontEnd : FrontEnd) (usedMacro : UsedMacro) : Bool :=
  match frontEnd.getMacroInfo usedMacro.macroName with
  | none => true
  | some macroInfo => !macroInfo.isUsedForHeaderGuard

/-- Member `filterOutHeaderGuards`: stable partition of the maybe used container, then
removal of everything from the partition point on. -/
def filterOutHeaderGuards (frontEnd : FrontEnd) (self : CollectMacrosPreprocessorCallbacks) :
    CollectMacrosPreprocessorCallbacks :=
  let partitioned := stablePartition (notHeaderGuard frontEnd) self.m_maybeUsedMacros
  { self with m_maybeUsedMacros := eraseToEnd partitioned.1 partitioned.2 }

/-- Whether the front end flags the name as used for a header guard when the unit ends:
the name has a macro info and the flag of that macro info is set. -/
def isHeaderGuard (frontEnd : FrontEnd) (macroName : String) : Bool :=
  match frontEnd.getMacroInfo macroName with
  | none => false
  | some macroInfo => macroInfo.isUsedForHeaderGuard

/-- The predicate of `filterOutExports`. -/
def notExport (usedMacro : UsedMacro) : Bool :=
  !contains usedMacro.macroName "EXPORT"

/-- Member `filterOutExports`: stable partition of the used container, then removal of
everything from the partition point on. -/
def filterOutExports (self : CollectMacrosPreprocessorCallbacks) :
    CollectMacrosPreprocessorCallbacks :=
  let partitioned := stablePartition notExport self.m_usedMacros
  { self with m_usedMacros := eraseToEnd partitioned.1 partitioned.2 }

/-- Member `mergeUsedMacros`: the maybe used entries are put behind the used ones and the
two runs are merged in place. -/
def mergeUsedMacros (self : CollectMacrosPreprocessorCallbacks) :
    CollectMacrosPreprocessorCallbacks :=
  let insertionPoint := self.m_usedMacros.length
  let appended := self.m_usedMacros ++ self.m_maybeUsedMacros
  { self with m_usedMacros := inplaceMerge appended insertionPoint }

/-- Callback `EndOfMainFile`. -/
def EndOfMainFile (frontEnd : FrontEnd) (self : CollectMacrosPreprocessorCallbacks) :
    CollectMacrosPreprocessorCallbacks :=
  filterOutExports (mergeUsedMacros (filterOutHeaderGuards frontEnd self))

end CollectMacrosPreprocessorCallbacks

/-! ## Event streams -/

/-- The preprocessing events, with the arguments the callbacks read. -/
inductive Event where
  | FileChanged (sourceLocation : SourceLocation) (reason : FileChangeReason)
  | InclusionDirective (hashLocation : SourceLocation) (file : Option FileEntry)
  | FileNotFound
  | Ifndef (macroNameToken : Token) (macroDefinition : MacroDefinition)
  | Ifdef (macroNameToken : Token) (macroDefinition : MacroDefinition)
  | Defined (macroNameToken : Token) (macroDefinition : MacroDefinition)
  | MacroDefined (macroNameToken : Token) (macroDirective : Option MacroDirective)
  | MacroUndefined (macroNameToken : Token) (macroDefinition : MacroDefinition)
  | MacroExpands (macroNameToken : Token) (macroDefinition : MacroDefinition)
  | EndOfMainFile
deriving DecidableEq

open CollectMacrosPreprocessorCallbacks in
/-- Delivery of one event to the callbacks object. -/
def deliver (frontEnd : FrontEnd) (self : CollectMacrosPreprocessorCallbacks) :
    Event → CollectMacrosPreprocessorCallbacks
  | .FileChanged sourceLocation reason => self.FileChanged sourceLocation reason
  | .InclusionDirective hashLocation file => self.InclusionDirective hashLocation file
  | .FileNotFound => self.FileNotFound
  | .Ifndef macroNameToken macroDefinition => Ifndef frontEnd self macroNameToken macroDefinition
  | .Ifdef macroNameToken macroDefinition => Ifdef frontEnd self macroNameToken macroDefinition
  | .Defined macroNameToken macroDefinition =>
    Defined frontEnd self macroNameToken macroDefinition
  | .MacroDefined macroNameToken macroDirective =>
    MacroDefined frontEnd self macroNameToken macroDirective
  | .MacroUndefined macroNameToken macroDefinition =>
    MacroUndefined frontEnd self macroNameToken macroDefinition
  | .MacroExpands macroNameToken macroDefinition =>
    MacroExpands frontEnd self macroNameToken macroDefinition
  | .EndOfMainFile => EndOfMainFile frontEnd self

/-- Delivery of a sequence of events, in order. -/
def deliverAll (frontEnd : FrontEnd) (self : CollectMacrosPreprocessorCallbacks)
    (events : List Event) : CollectMacrosPreprocessorCallbacks :=
  events.foldl (deliver frontEnd) self

/-- The events that are an `InclusionDirective`. -/
def Event.isInclusionDirective : Event → Bool
  | .InclusionDirective _ _ => true
  | _ => false

/-- The macro name token of the events that carry one. -/
def Event.macroNameToken : Event → Option Token
  | .Ifndef macroNameToken _ => some macroNameToken
  | .Ifdef macroNameToken _ => some macroNameToken
  | .Defined macroNameToken _ => some macroNameToken
  | .MacroDefined macroNameToken _ => some macroNameToken
  | .MacroUndefined macroNameToken _ => some macroNameToken
  | .MacroExpands macroNameToken _ => some macroNameToken
  | _ => none

/-- Whether `generateUSR` succeeds for the macro name token of the event (events without
such a token pass). -/
def Event.usrAvailable (frontEnd : FrontEnd) (event : Event) : Bool :=
  match event.macroNameToken with
  | some token => (frontEnd.generateUSR token.getName token.getLocation).isSome
  | none => true

/-- No dangling reference: every symbol id of the location entries is a key of the
symbol map. -/
def symbolsResolved (self : CollectMacrosPreprocessorCallbacks) : Prop :=
  ∀ entry ∈ self.m_sourceLocationEntries, entry.symbolId ∈ symbolKeys self.m_symbolEntries

/-! ## Sample inputs -/

/-- A file position: line `line`, column 1 of the file with id `fileId`. -/
def sampleLocation (fileId : Int) (line : Nat) : SourceLocation :=
  ⟨true, some ⟨⟨fileId⟩, 0, 0⟩, line, 1⟩

/-- A macro name token at a file position. -/
def sampleToken (name : String) (fileId : Int) (line : Nat) : Token :=
  ⟨name, sampleLocation fileId line⟩

/-- A chain of one directive that defines the macro info at `address`. -/
def sampleDirective (address : Nat) : MacroDirective :=
  .first (some ⟨address, false⟩)

/-- A live definition whose only directive defines the macro info at `address`. -/
def liveDefinition (address : Nat) : MacroDefinition :=
  ⟨some (sampleDirective address), some ⟨address, false⟩⟩

/-- The definition of an identifier that is not defined. -/
def noDefinition : MacroDefinition := ⟨none, none⟩

/-- A front end whose `generateUSR` always fails and that knows no macro at the end of
the unit. -/
def frontEndWithoutUSR : FrontEnd := ⟨fun _ => none, fun _ _ => none⟩

/-- A front end whose `generateUSR` gives the name, and that flags the macro info of
`guard` (and of no other name) as used for a header guard at the end of the unit. -/
def frontEndWithGuard (guard : String) : FrontEnd :=
  ⟨fun name => if name = guard then some ⟨1, true⟩ else none, fun name _ => some name⟩

/-- A front end whose `generateUSR` fails for a name token on line 1 and gives the name
for a token on any other line; it knows no macro at the end of the unit. -/
def frontEndWithoutUSROnFirstLine : FrontEnd :=
  ⟨fun _ => none, fun name sourceLocation => if sourceLocation.line = 1 then none else some name⟩

/-! ## Event streams and chains, as the front end produces them -/

/-- The directives of a redefinition chain, newest first: the directive itself, then the
chain of its previous directive. -/
def MacroDirective.chain : MacroDirective → List MacroDirective
  | .first macroInfo => [.first macroInfo]
  | .next macroInfo previous => .next macroInfo previous :: previous.chain

/-- The id of the file that an event enters: `FileChanged` with the reason `EnterFile` at
a location that resolves to a file entry. -/
def Event.enteredFile : Event → Option FilePathId
  | .FileChanged sourceLocation reason =>
    if reason = FileChangeReason.EnterFile then
      sourceLocation.fileEntry.map (fun fileEntry => fileEntry.filePathId)
    else none
  | _ => none

/-- The ids of the files entered by a sequence of events, one per entering event, in
order. -/
def enteredFiles (events : List Event) : List FilePathId :=
  events.filterMap Event.enteredFile

/-- A sequence of ids with every repeat after the first occurrence removed: the distinct
ids in order of first occurrence. -/
def distinctInOrder : List FilePathId → List FilePathId
  | [] => []
  | id :: ids => id :: (distinctInOrder ids).filter (fun other => decide (other ≠ id))

/-- The events of the unit `#define X 1`, `#undef X`, `#define X 2`, use of `X`: the chain
of `X` is first definition, undefinition, second definition (newest last here);
`MacroUndefined` and `MacroExpands` get the definition that is live when they happen. -/
def redefinitionUnit (firstInfo secondInfo : MacroInfo)
    (defined₁ undefined defined₂ used : Token) : List Event :=
  [Event.MacroDefined defined₁ (some (.first (some firstInfo))),
   Event.MacroUndefined undefined ⟨some (.first (some firstInfo)), some firstInfo⟩,
   Event.MacroDefined defined₂
     (some (.next (some secondInfo) (.next none (.first (some firstInfo))))),
   Event.MacroExpands used
     ⟨some (.next (some secondInfo) (.next none (.first (some firstInfo)))), some secondInfo⟩]

/-- A token at a file position whose file id is valid. -/
def Token.atValidFilePosition (token : Token) : Bool :=
  token.getLocation.isFileID && (filePathIdOfLocation token.getLocation).isValid

/-! ## Facts about the standard algorithms -/

section AlgorithmFacts

variable {α : Type}

theorem sorted_getElem?_le [LinearOrder α] {xs : List α} (hs : xs.Sorted (· ≤ ·))
    {i j : Nat} {a b : α} (hij : i ≤ j) (ha : xs[i]? = some a) (hb : xs[j]? = some b) :
    a ≤ b := by
  rcases Nat.eq_or_lt_of_le hij with h | h
  · subst h
    rw [ha] at hb
    exact le_of_eq (Option.some.inj hb)
  · obtain ⟨hi, rfl⟩ := List.getElem?_eq_some.mp ha
    obtain ⟨hj, rfl⟩ := List.getElem?_eq_some.mp hb
    exact List.pairwise_iff_getElem.mp hs i j hi hj h

theorem lowerBoundLoop_spec [LinearOrder α] (xs : List α) (value : α)
    (hs : xs.Sorted (· ≤ ·)) :
    ∀ (fuel first len : Nat), len ≤ fuel → first + len ≤ xs.length →
      (∀ i x, i < first → xs[i]? = some x → x < value) →
      (∀ i x, first + len ≤ i → xs[i]? = some x → ¬ x < value) →
      lowerBoundLoop xs value fuel first len ≤ xs.length ∧
      (∀ i x, i < lowerBoundLoop xs value fuel first len → xs[i]? = some x → x < value) ∧
      (∀ i x, lowerBoundLoop xs value fuel first len ≤ i → xs[i]? = some x → ¬ x < value) := by
  intro fuel
  induction fuel with
  | zero =>
    intro first len hfuel hlen hlo hhi
    have h0 : len = 0 := Nat.le_zero.mp hfuel
    subst h0
    simp only [lowerBoundLoop]
    exact ⟨by omega, hlo, fun i x hi => hhi i x (by omega)⟩
  | succ fuel ih =>
    intro first len hfuel hlen hlo hhi
    by_cases h0 : len = 0
    · subst h0
      simp only [lowerBoundLoop, if_true]
      exact ⟨by omega, hlo, fun i x hi => hhi i x (by omega)⟩
    · have hhalf : len / 2 < len := Nat.div_lt_self (Nat.pos_of_ne_zero h0) (by decide)
      have hmid : first + len / 2 < xs.length := by omega
      obtain ⟨m, hm⟩ : ∃ m, xs[first + len / 2]? = some m :=
        ⟨xs[first + len / 2], List.getElem?_eq_getElem hmid⟩
      simp only [lowerBoundLoop, h0, if_false, hm]
      by_cases hlt : m < value
      · simp only [hlt, if_true]
        apply ih
        · omega
        · omega
        · intro i x hi hx
          exact lt_of_le_of_lt (sorted_getElem?_le hs (by omega) hx hm) hlt
        · intro i x hi hx
          exact hhi i x (by omega) hx
      · simp only [hlt, if_false]
        apply ih
        · omega
        · omega
        · exact hlo
        · intro i x hi hx hxv
          exact hlt (lt_of_le_of_lt (sorted_getElem?_le hs hi hm hx) hxv)

theorem lowerBound_spec [LinearOrder α] (xs : List α) (value : α)
    (hs : xs.Sorted (· ≤ ·)) :
    lowerBound xs value ≤ xs.length ∧
    (∀ i x, i < lowerBound xs value → xs[i]? = some x → x < value) ∧
    (∀ i x, lowerBound xs value ≤ i → xs[i]? = some x → ¬ x < value) := by
  unfold lowerBound
  apply lowerBoundLoop_spec xs value hs
  · exact le_refl _
  · omega
  · intro i x hi
    omega
  · intro i x hi hx
    have hnone : xs[i]? = none := List.getElem?_eq_none (by omega)
    rw [hnone] at hx
    exact absurd hx (by simp)

end AlgorithmFacts

section InsertionFacts

variable {α : Type}

theorem vectorInsert_perm (xs : List α) (position : Nat) (value : α) :
    (vectorInsert xs position value).Perm (value :: xs) := by
  unfold vectorInsert
  have h : (xs.take position ++ value :: xs.drop position).Perm
      (value :: (xs.take position ++ xs.drop position)) := List.perm_middle
  rw [List.take_append_drop] at h
  exact h

theorem lt_of_mem_take_lowerBound [LinearOrder α] {xs : List α} {value x : α}
    (hs : xs.Sorted (· ≤ ·)) (hx : x ∈ xs.take (lowerBound xs value)) : x < value := by
  obtain ⟨i, hi⟩ := List.mem_iff_getElem?.mp hx
  rw [List.getElem?_take] at hi
  by_cases h : i < lowerBound xs value
  · rw [if_pos h] at hi
    exact (lowerBound_spec xs value hs).2.1 i x h hi
  · rw [if_neg h] at hi
    exact absurd hi (by simp)

theorem le_of_mem_drop_lowerBound [LinearOrder α] {xs : List α} {value x : α}
    (hs : xs.Sorted (· ≤ ·)) (hx : x ∈ xs.drop (lowerBound xs value)) : value ≤ x := by
  obtain ⟨i, hi⟩ := List.mem_iff_getElem?.mp hx
  rw [List.getElem?_drop] at hi
  exact not_lt.mp ((lowerBound_spec xs value hs).2.2 _ x (Nat.le_add_right _ _) hi)

theorem lowerBound_getElem?_of_mem [LinearOrder α] {xs : List α} {value : α}
    (hs : xs.Sorted (· ≤ ·)) (hmem : value ∈ xs) :
    xs[lowerBound xs value]? = some value := by
  obtain ⟨hlen, hlo, hhi⟩ := lowerBound_spec xs value hs
  obtain ⟨j, hj⟩ := List.mem_iff_getElem?.mp hmem
  have hrj : lowerBound xs value ≤ j := by
    by_contra hcon
    exact lt_irrefl value (hlo j value (not_le.mp hcon) hj)
  obtain ⟨hjlen, _⟩ := List.getElem?_eq_some.mp hj
  have hr : lowerBound xs value < xs.length := lt_of_le_of_lt hrj hjlen
  have hm : xs[lowerBound xs value]? = some xs[lowerBound xs value] :=
    List.getElem?_eq_getElem hr
  have h1 : xs[lowerBound xs value] ≤ value := sorted_getElem?_le hs hrj hm hj
  have h2 : ¬ xs[lowerBound xs value] < value := hhi _ _ (le_refl _) hm
  rw [hm, le_antisymm h1 (not_lt.mp h2)]

theorem vectorInsert_lowerBound_sorted [LinearOrder α] {xs : List α} (value : α)
    (hs : xs.Sorted (· ≤ ·)) :
    (vectorInsert xs (lowerBound xs value) value).Sorted (· ≤ ·) := by
  unfold vectorInsert
  have htd : (xs.take (lowerBound xs value) ++ xs.drop (lowerBound xs value)).Sorted (· ≤ ·) := by
    rw [List.take_append_drop]
    exact hs
  obtain ⟨ht, hd, _⟩ := List.pairwise_append.mp htd
  refine List.pairwise_append.mpr ⟨ht, ?_, ?_⟩
  · exact List.sorted_cons.mpr ⟨fun b hb => le_of_mem_drop_lowerBound hs hb, hd⟩
  · intro a ha b hb
    have hav : a < value := lt_of_mem_take_lowerBound hs ha
    rcases List.mem_cons.mp hb with h | h
    · rw [h]
      exact le_of_lt hav
    · exact le_trans (le_of_lt hav) (le_of_mem_drop_lowerBound hs h)

end InsertionFacts

/-! ## Facts about the static `addUsedMacro` -/

theorem addUsedMacro_of_mem {usedMacro : UsedMacro} {usedMacros : UsedMacros}
    (hs : usedMacros.Sorted (· ≤ ·)) (hmem : usedMacro ∈ usedMacros) :
    addUsedMacro usedMacro usedMacros = usedMacros := by
  have hget := lowerBound_getElem?_of_mem hs hmem
  obtain ⟨hlt, _⟩ := List.getElem?_eq_some.mp hget
  unfold addUsedMacro
  simp only [hget, ne_eq, not_true_eq_false, or_false]
  rw [if_neg (Nat.ne_of_lt hlt)]

theorem addUsedMacro_of_not_mem {usedMacro : UsedMacro} {usedMacros : UsedMacros}
    (hmem : usedMacro ∉ usedMacros) :
    addUsedMacro usedMacro usedMacros =
      vectorInsert usedMacros (lowerBound usedMacros usedMacro) usedMacro := by
  have hget : usedMacros[lowerBound usedMacros usedMacro]? ≠ some usedMacro :=
    fun h => hmem (List.getElem?_mem h)
  unfold addUsedMacro
  simp only
  rw [if_pos (Or.inr hget)]

theorem mem_addUsedMacro {usedMacro : UsedMacro} {usedMacros : UsedMacros}
    (hs : usedMacros.Sorted (· ≤ ·)) (x : UsedMacro) :
    x ∈ addUsedMacro usedMacro usedMacros ↔ x = usedMacro ∨ x ∈ usedMacros := by
  by_cases hmem : usedMacro ∈ usedMacros
  · rw [addUsedMacro_of_mem hs hmem]
    constructor
    · exact fun h => Or.inr h
    · rintro (h | h)
      · rw [h]
        exact hmem
      · exact h
  · rw [addUsedMacro_of_not_mem hmem, (vectorInsert_perm _ _ _).mem_iff, List.mem_cons]

theorem addUsedMacro_sorted {usedMacro : UsedMacro} {usedMacros : UsedMacros}
    (hs : usedMacros.Sorted (· ≤ ·)) :
    (addUsedMacro usedMacro usedMacros).Sorted (· ≤ ·) := by
  by_cases hmem : usedMacro ∈ usedMacros
  · rw [addUsedMacro_of_mem hs hmem]
    exact hs
  · rw [addUsedMacro_of_not_mem hmem]
    exact vectorInsert_lowerBound_sorted usedMacro hs

theorem addUsedMacro_nodup {usedMacro : UsedMacro} {usedMacros : UsedMacros}
    (hs : usedMacros.Sorted (· ≤ ·)) (hn : usedMacros.Nodup) :
    (addUsedMacro usedMacro usedMacros).Nodup := by
  by_cases hmem : usedMacro ∈ usedMacros
  · rw [addUsedMacro_of_mem hs hmem]
    exact hn
  · rw [addUsedMacro_of_not_mem hmem, (vectorInsert_perm _ _ _).nodup_iff]
    exact List.nodup_cons.mpr ⟨hmem, hn⟩

theorem addUsedMacro_strictSorted {usedMacro : UsedMacro} {usedMacros : UsedMacros}
    (hs : usedMacros.Sorted (· < ·)) :
    (addUsedMacro usedMacro usedMacros).Sorted (· < ·) :=
  (addUsedMacro_sorted hs.le_of_lt).lt_of_le (addUsedMacro_nodup hs.le_of_lt hs.nodup)

section MergeFacts

variable {α : Type}

theorem merge_nil_left [LinearOrder α] (ys : List α) : merge [] ys = ys := rfl

theorem merge_nil_right [LinearOrder α] (xs : List α) : merge xs [] = xs := by
  cases xs <;> rfl

theorem merge_cons_cons [LinearOrder α] (x y : α) (xs ys : List α) :
    merge (x :: xs) (y :: ys) =
      if y < x then y :: merge (x :: xs) ys else x :: merge xs (y :: ys) := rfl

theorem merge_perm [LinearOrder α] (xs ys : List α) : (merge xs ys).Perm (xs ++ ys) := by
  induction xs generalizing ys with
  | nil => exact List.Perm.refl _
  | cons x xs ihx =>
    induction ys with
    | nil =>
      rw [merge_nil_right, List.append_nil]
    | cons y ys ihy =>
      rw [merge_cons_cons]
      by_cases h : y < x
      · rw [if_pos h]
        exact (List.Perm.cons y ihy).trans List.perm_middle.symm
      · rw [if_neg h]
        exact List.Perm.cons x (ihx (y :: ys))

theorem merge_sorted [LinearOrder α] {xs ys : List α} (hx : xs.Sorted (· ≤ ·))
    (hy : ys.Sorted (· ≤ ·)) : (merge xs ys).Sorted (· ≤ ·) := by
  induction xs generalizing ys with
  | nil => exact hy
  | cons x xs ihx =>
    induction ys with
    | nil =>
      rw [merge_nil_right]
      exact hx
    | cons y ys ihy =>
      obtain ⟨hxall, hxs⟩ := List.sorted_cons.mp hx
      obtain ⟨hyall, hys⟩ := List.sorted_cons.mp hy
      rw [merge_cons_cons]
      by_cases h : y < x
      · rw [if_pos h]
        refine List.sorted_cons.mpr ⟨?_, ihy hys⟩
        intro b hb
        rcases List.mem_append.mp ((merge_perm (x :: xs) ys).mem_iff.mp hb) with hb1 | hb1
        · rcases List.mem_cons.mp hb1 with hb2 | hb2
          · rw [hb2]
            exact le_of_lt h
          · exact le_trans (le_of_lt h) (hxall b hb2)
        · exact hyall b hb1
      · rw [if_neg h]
        refine List.sorted_cons.mpr ⟨?_, ihx hxs hy⟩
        intro b hb
        rcases List.mem_append.mp ((merge_perm xs (y :: ys)).mem_iff.mp hb) with hb1 | hb1
        · exact hxall b hb1
        · rcases List.mem_cons.mp hb1 with hb2 | hb2
          · rw [hb2]
            exact not_lt.mp h
          · exact le_trans (not_lt.mp h) (hyall b hb2)

theorem inplaceMerge_append [LinearOrder α] (xs ys : List α) :
    inplaceMerge (xs ++ ys) xs.length = merge xs ys := by
  unfold inplaceMerge
  rw [List.take_left, List.drop_left]

theorem stablePartitionGroups_eq (p : α → Bool) (xs : List α) :
    stablePartitionGroups p xs = (xs.filter p, xs.filter (fun x => !p x)) := by
  induction xs with
  | nil => rfl
  | cons x xs ih =>
    simp only [stablePartitionGroups, ih, List.filter_cons]
    cases p x <;> simp

theorem eraseToEnd_stablePartition (p : α → Bool) (xs : List α) :
    eraseToEnd (stablePartition p xs).1 (stablePartition p xs).2 = xs.filter p := by
  unfold eraseToEnd stablePartition
  simp only [stablePartitionGroups_eq]
  rw [List.take_left]

theorem startsWith_iff (text pattern : List Char) :
    startsWith text pattern = true ↔ pattern <+: text := by
  induction text generalizing pattern with
  | nil =>
    cases pattern with
    | nil => simp [startsWith]
    | cons p pattern => simp [startsWith]
  | cons c text ih =>
    cases pattern with
    | nil => simp [startsWith]
    | cons p pattern =>
      simp only [startsWith, Bool.and_eq_true, decide_eq_true_eq, ih, List.cons_prefix_cons]
      constructor
      · rintro ⟨h1, h2⟩
        exact ⟨h1.symm, h2⟩
      · rintro ⟨h1, h2⟩
        exact ⟨h1.symm, h2⟩

theorem containsChars_iff (pattern text : List Char) :
    containsChars pattern text = true ↔ pattern <:+: text := by
  induction text with
  | nil =>
    simp only [containsChars, startsWith_iff]
    constructor
    · exact fun h => h.isInfix
    · intro h
      rw [List.eq_nil_of_infix_nil h]
  | cons c text ih =>
    simp only [containsChars, Bool.or_eq_true, startsWith_iff, ih, List.infix_cons_iff]

theorem contains_iff (text pattern : String) :
    contains text pattern = true ↔ pattern.toList <:+: text.toList :=
  containsChars_iff _ _

end MergeFacts

open CollectMacrosPreprocessorCallbacks

/-! ## Facts about the symbol map -/

theorem mem_symbolKeys_of_find {symbolEntries : SymbolEntries} {globalId : SymbolIndex}
    {entry : SymbolEntry} (h : findSymbolEntry symbolEntries globalId = some entry) :
    globalId ∈ symbolKeys symbolEntries := by
  induction symbolEntries with
  | nil => simp [findSymbolEntry] at h
  | cons head rest ih =>
    obtain ⟨key, value⟩ := head
    simp only [findSymbolEntry] at h
    by_cases hk : key = globalId
    · simp [symbolKeys, hk]
    · rw [if_neg hk] at h
      have := ih h
      simp only [symbolKeys, List.map_cons, List.mem_cons] at this ⊢
      exact Or.inr this

theorem symbolKeys_emplace (symbolEntries : SymbolEntries) (globalId : SymbolIndex)
    (entry : SymbolEntry) (h : findSymbolEntry symbolEntries globalId = none) :
    symbolKeys (emplaceSymbolEntry symbolEntries globalId entry) =
      symbolKeys symbolEntries ++ [globalId] := by
  simp [emplaceSymbolEntry, h, symbolKeys]

/-! ## What `addMacroAsSymbol` and the member `addUsedMacro` leave alone -/

theorem addMacroAsSymbol_frame (frontEnd : FrontEnd) (self : CollectMacrosPreprocessorCallbacks)
    (token : Token) (macroInfo : Option MacroInfo) (symbolType : SymbolType) :
    (addMacroAsSymbol frontEnd self token macroInfo symbolType).m_usedMacros = self.m_usedMacros ∧
    (addMacroAsSymbol frontEnd self token macroInfo symbolType).m_maybeUsedMacros =
      self.m_maybeUsedMacros ∧
    (addMacroAsSymbol frontEnd self token macroInfo symbolType).m_sourceFiles =
      self.m_sourceFiles ∧
    (addMacroAsSymbol frontEnd self token macroInfo symbolType).m_fileInformations =
      self.m_fileInformations ∧
    (addMacroAsSymbol frontEnd self token macroInfo symbolType).m_sourceDependencies =
      self.m_sourceDependencies ∧
    (addMacroAsSymbol frontEnd self token macroInfo symbolType).m_skipInclude =
      self.m_skipInclude := by
  unfold addMacroAsSymbol
  cases macroInfo with
  | none => simp
  | some info =>
    simp only
    split
    · split <;> simp
    · simp

theorem addUsedMacro_frame (self : CollectMacrosPreprocessorCallbacks) (token : Token)
    (macroDefinition : MacroDefinition) :
    (self.addUsedMacro token macroDefinition).m_symbolEntries = self.m_symbolEntries ∧
    (self.addUsedMacro token macroDefinition).m_sourceLocationEntries =
      self.m_sourceLocationEntries ∧
    (self.addUsedMacro token macroDefinition).m_sourceFiles = self.m_sourceFiles ∧
    (self.addUsedMacro token macroDefinition).m_fileInformations = self.m_fileInformations ∧
    (self.addUsedMacro token macroDefinition).m_sourceDependencies =
      self.m_sourceDependencies ∧
    (self.addUsedMacro token macroDefinition).m_skipInclude = self.m_skipInclude := by
  unfold CollectMacrosPreprocessorCallbacks.addUsedMacro
  cases macroDefinition.getMacroInfo <;> simp

theorem addMacroAsSymbol_symbolsResolved (frontEnd : FrontEnd)
    (self : CollectMacrosPreprocessorCallbacks) (token : Token) (macroInfo : Option MacroInfo)
    (symbolType : SymbolType)
    (husr : (frontEnd.generateUSR token.getName token.getLocation).isSome = true)
    (hinv : symbolsResolved self) :
    symbolsResolved (addMacroAsSymbol frontEnd self token macroInfo symbolType) := by
  unfold addMacroAsSymbol
  cases macroInfo with
  | none => exact hinv
  | some info =>
    simp only
    split
    · split
      · obtain ⟨usr, husr2⟩ := Option.isSome_iff_exists.mp husr
        intro entry hentry
        simp only [List.mem_append, List.mem_singleton] at hentry
        cases hfind : findSymbolEntry self.m_symbolEntries (toSymbolIndex info) with
        | some found =>
          simp only [hfind]
          rcases hentry with h | h
          · exact hinv entry h
          · rw [h]
            exact mem_symbolKeys_of_find hfind
        | none =>
          simp only [hfind, husr2]
          rw [symbolKeys_emplace _ _ _ hfind]
          rcases hentry with h | h
          · exact List.mem_append_left _ (hinv entry h)
          · rw [h]
            simp
      · exact hinv
    · exact hinv

theorem deliver_symbolsResolved (frontEnd : FrontEnd) (self : CollectMacrosPreprocessorCallbacks)
    (event : Event) (husr : event.usrAvailable frontEnd = true) (hinv : symbolsResolved self) :
    symbolsResolved (deliver frontEnd self event) := by
  have hused : ∀ token macroDefinition,
      symbolsResolved (self.addUsedMacro token macroDefinition) := by
    intro token macroDefinition entry hentry
    rw [(addUsedMacro_frame self token macroDefinition).1]
    rw [(addUsedMacro_frame self token macroDefinition).2.1] at hentry
    exact hinv entry hentry
  cases event with
  | FileChanged sourceLocation reason =>
    simp only [deliver, FileChanged]
    split
    · split
      · unfold addSourceFile
        simp only
        split <;> exact hinv
      · exact hinv
    · exact hinv
  | InclusionDirective hashLocation file =>
    simp only [deliver, InclusionDirective]
    split
    · cases file <;> exact hinv
    · exact hinv
  | FileNotFound => exact hinv
  | Ifndef token macroDefinition =>
    exact addMacroAsSymbol_symbolsResolved frontEnd _ token _ _ husr (hused _ _)
  | Ifdef token macroDefinition =>
    exact addMacroAsSymbol_symbolsResolved frontEnd _ token _ _ husr (hused _ _)
  | Defined token macroDefinition =>
    exact addMacroAsSymbol_symbolsResolved frontEnd _ token _ _ husr (hused _ _)
  | MacroDefined token macroDirective =>
    exact addMacroAsSymbol_symbolsResolved frontEnd _ token _ _ husr hinv
  | MacroUndefined token macroDefinition =>
    exact addMacroAsSymbol_symbolsResolved frontEnd _ token _ _ husr hinv
  | MacroExpands token macroDefinition =>
    exact addMacroAsSymbol_symbolsResolved frontEnd _ token _ _ husr (hused _ _)
  | EndOfMainFile => exact hinv

theorem deliverAll_symbolsResolved (frontEnd : FrontEnd) (events : List Event) :
    ∀ self : CollectMacrosPreprocessorCallbacks,
      (∀ event ∈ events, event.usrAvailable frontEnd = true) → symbolsResolved self →
      symbolsResolved (deliverAll frontEnd self events) := by
  induction events with
  | nil => exact fun self _ hinv => hinv
  | cons event events ih =>
    intro self husr hinv
    exact ih (deliver frontEnd self event) (fun e he => husr e (List.mem_cons_of_mem _ he))
      (deliver_symbolsResolved frontEnd self event (husr event (List.mem_cons_self _ _)) hinv)

/-! ## The claims -/

/-- C1, the claim as stated fails: with a `generateUSR` that fails, one `MacroDefined` at a
file position leaves the symbol map empty and still appends a location entry, whose
symbol id 100 is then not a key of the map. -/
theorem C1_dangling_location_entry :
    (deliverAll frontEndWithoutUSR initial
        [Event.MacroDefined (sampleToken "X" 1 1) (some (sampleDirective 100))]).m_symbolEntries
      = [] ∧
    (deliverAll frontEndWithoutUSR initial
        [Event.MacroDefined (sampleToken "X" 1 1)
          (some (sampleDirective 100))]).m_sourceLocationEntries
      = [⟨100, ⟨1⟩, ⟨1, 1⟩, SymbolType.MacroDefinition⟩] := by
  decide

/-- C1 (amended): when `generateUSR` succeeds for the macro name token of every event of
a sequence delivered to the empty collections, every symbol id of the location entries is
a key of the symbol map. When `generateUSR` fails for a symbol that has no entry yet (at
a valid file position), `addMacroAsSymbol` records no symbol entry and still appends the
location entry. -/
theorem C1_symbols_resolved_when_usr_available :
    (∀ (frontEnd : FrontEnd) (events : List Event),
      (∀ event ∈ events, event.usrAvailable frontEnd = true) →
      ∀ entry ∈ (deliverAll frontEnd initial events).m_sourceLocationEntries,
        entry.symbolId ∈ symbolKeys (deliverAll frontEnd initial events).m_symbolEntries) ∧
    (∀ (frontEnd : FrontEnd) (self : CollectMacrosPreprocessorCallbacks) (token : Token)
      (info : MacroInfo) (symbolType : SymbolType),
      token.getLocation.isFileID = true →
      (filePathIdOfLocation token.getLocation).isValid = true →
      findSymbolEntry self.m_symbolEntries (toSymbolIndex info) = none →
      frontEnd.generateUSR token.getName token.getLocation = none →
      (addMacroAsSymbol frontEnd self token (some info) symbolType).m_symbolEntries =
        self.m_symbolEntries ∧
      (addMacroAsSymbol frontEnd self token (some info) symbolType).m_sourceLocationEntries =
        self.m_sourceLocationEntries ++
          [⟨toSymbolIndex info, filePathIdOfLocation token.getLocation,
            lineColum token.getLocation, symbolType⟩]) := by
  constructor
  · intro frontEnd events husr
    exact deliverAll_symbolsResolved frontEnd events initial husr
      (fun entry hentry => absurd hentry (List.not_mem_nil entry))
  · intro frontEnd self token info symbolType hfile hvalid hfind husr
    unfold addMacroAsSymbol
    simp only [hfile, hvalid, hfind, husr, if_true, and_self]

/-- C1 (amended), at a concrete input: a definition and a use of `X` with a
`generateUSR` that succeeds, and a definition of `X` in the empty object with one that
fails. -/
theorem C1_symbols_resolved_when_usr_available_witness :
    (100 : SymbolIndex) ∈ symbolKeys (deliverAll (frontEndWithGuard "G") initial
        [Event.MacroDefined (sampleToken "X" 1 1) (some (sampleDirective 100)),
         Event.MacroExpands (sampleToken "X" 1 2) (liveDefinition 100)]).m_symbolEntries ∧
    (addMacroAsSymbol frontEndWithoutUSR initial (sampleToken "X" 1 1) (some ⟨100, false⟩)
        SymbolType.MacroDefinition).m_symbolEntries = [] ∧
    (addMacroAsSymbol frontEndWithoutUSR initial (sampleToken "X" 1 1) (some ⟨100, false⟩)
        SymbolType.MacroDefinition).m_sourceLocationEntries =
      [⟨100, ⟨1⟩, ⟨1, 1⟩, SymbolType.MacroDefinition⟩] :=
  ⟨C1_symbols_resolved_when_usr_available.1 (frontEndWithGuard "G")
      [Event.MacroDefined (sampleToken "X" 1 1) (some (sampleDirective 100)),
       Event.MacroExpands (sampleToken "X" 1 2) (liveDefinition 100)] (by decide)
      ⟨100, ⟨1⟩, ⟨2, 1⟩, SymbolType.MacroUsage⟩ (by decide),
   C1_symbols_resolved_when_usr_available.2 frontEndWithoutUSR initial (sampleToken "X" 1 1)
     ⟨100, false⟩ SymbolType.MacroDefinition (by decide) (by decide) (by decide) (by decide)⟩

/-! ## Facts about the end of the unit -/

theorem notHeaderGuard_eq (frontEnd : FrontEnd) (usedMacro : UsedMacro) :
    notHeaderGuard frontEnd usedMacro = !isHeaderGuard frontEnd usedMacro.macroName := by
  unfold notHeaderGuard isHeaderGuard
  cases frontEnd.getMacroInfo usedMacro.macroName <;> rfl

theorem filterOutHeaderGuards_maybeUsedMacros (frontEnd : FrontEnd)
    (self : CollectMacrosPreprocessorCallbacks) :
    (filterOutHeaderGuards frontEnd self).m_maybeUsedMacros =
      self.m_maybeUsedMacros.filter (notHeaderGuard frontEnd) :=
  eraseToEnd_stablePartition _ _

theorem filterOutExports_usedMacros (self : CollectMacrosPreprocessorCallbacks) :
    (filterOutExports self).m_usedMacros = self.m_usedMacros.filter notExport :=
  eraseToEnd_stablePartition _ _

theorem mergeUsedMacros_usedMacros (self : CollectMacrosPreprocessorCallbacks) :
    (mergeUsedMacros self).m_usedMacros = merge self.m_usedMacros self.m_maybeUsedMacros :=
  inplaceMerge_append _ _

theorem EndOfMainFile_usedMacros (frontEnd : FrontEnd)
    (self : CollectMacrosPreprocessorCallbacks) :
    (EndOfMainFile frontEnd self).m_usedMacros =
      (merge self.m_usedMacros
        (self.m_maybeUsedMacros.filter (notHeaderGuard frontEnd))).filter notExport := by
  unfold EndOfMainFile
  rw [filterOutExports_usedMacros, mergeUsedMacros_usedMacros,
    filterOutHeaderGuards_maybeUsedMacros]
  rfl

theorem EndOfMainFile_maybeUsedMacros (frontEnd : FrontEnd)
    (self : CollectMacrosPreprocessorCallbacks) :
    (EndOfMainFile frontEnd self).m_maybeUsedMacros =
      self.m_maybeUsedMacros.filter (notHeaderGuard frontEnd) :=
  eraseToEnd_stablePartition _ _

/-! ## The claims about the end of the unit -/

/-- C2, evaluation at the failing input: `X` is tested by `#ifdef` while it is not
defined and expanded later in the same file while it is; the entry is in both
containers, the merge keeps both copies, and the final used sequence holds the pair
`(X, 1)` twice. -/
theorem C2_final_sequence_repeats_pair :
    (deliverAll (frontEndWithGuard "G") initial
      [Event.Ifdef (sampleToken "X" 1 1) noDefinition,
       Event.MacroExpands (sampleToken "X" 1 4) (liveDefinition 100),
       Event.EndOfMainFile]).m_usedMacros = [⟨"X", ⟨1⟩⟩, ⟨"X", ⟨1⟩⟩] := by
  decide

/-- C3, the claim as stated fails: `FOO_H` is flagged as the header guard, the unit tests
it once without a definition and once, after its definition, with one; the second
reference is a confirmed use, which no filter removes, so the final used sequence
contains `FOO_H`. -/
theorem C3_confirmed_header_guard_survives :
    (deliverAll (frontEndWithGuard "FOO_H") initial
      [Event.Ifndef (sampleToken "FOO_H" 1 1) noDefinition,
       Event.MacroDefined (sampleToken "FOO_H" 1 2) (some (sampleDirective 1)),
       Event.Ifdef (sampleToken "FOO_H" 1 3) (liveDefinition 1),
       Event.EndOfMainFile]).m_usedMacros = [⟨"FOO_H", ⟨1⟩⟩] ∧
    isHeaderGuard (frontEndWithGuard "FOO_H") "FOO_H" = true := by
  decide

/-- C3 (amended): after `EndOfMainFile`, an entry of the final used sequence whose name
the front end flags as used for a header guard was in the confirmed used container before
the end of the unit, so no entry that comes from the maybe used container alone is
flagged. In particular the unit `Ifndef(name, no definition)`, `MacroDefined(name)` with
`name` flagged leaves no entry for `name` in the final used sequence. -/
theorem C3_flagged_entries_come_from_confirmed :
    (∀ (frontEnd : FrontEnd) (self : CollectMacrosPreprocessorCallbacks) (usedMacro : UsedMacro),
      usedMacro ∈ (EndOfMainFile frontEnd self).m_usedMacros →
      isHeaderGuard frontEnd usedMacro.macroName = true →
      usedMacro ∈ self.m_usedMacros) ∧
    (∀ (frontEnd : FrontEnd) (token : Token) (macroDirective : Option MacroDirective),
      isHeaderGuard frontEnd token.getName = true →
      ∀ fileId : FilePathId,
        (⟨token.getName, fileId⟩ : UsedMacro) ∉
          (deliverAll frontEnd initial
            [Event.Ifndef token noDefinition, Event.MacroDefined token macroDirective,
             Event.EndOfMainFile]).m_usedMacros) := by
  constructor
  · intro frontEnd self usedMacro hmem hguard
    rw [EndOfMainFile_usedMacros] at hmem
    have h1 := (List.mem_filter.mp hmem).1
    rcases List.mem_append.mp ((merge_perm _ _).mem_iff.mp h1) with h2 | h2
    · exact h2
    · have h3 := (List.mem_filter.mp h2).2
      rw [notHeaderGuard_eq, hguard] at h3
      exact absurd h3 (by decide)
  · intro frontEnd token macroDirective hguard fileId
    have hfinal : (deliverAll frontEnd initial
        [Event.Ifndef token noDefinition, Event.MacroDefined token macroDirective,
          Event.EndOfMainFile]).m_usedMacros = [] := by
      simp only [deliverAll, List.foldl_cons, List.foldl_nil, deliver, MacroDefined, Ifndef]
      rw [EndOfMainFile_usedMacros]
      simp only [(addMacroAsSymbol_frame _ _ _ _ _).1, (addMacroAsSymbol_frame _ _ _ _ _).2.1]
      have hnhg : notHeaderGuard frontEnd
          ⟨token.getName, filePathIdOfLocation token.getLocation⟩ = false := by
        rw [notHeaderGuard_eq, hguard]
        rfl
      simp [CollectMacrosPreprocessorCallbacks.addUsedMacro, noDefinition, initial,
        ClangBackEnd.addUsedMacro, lowerBound, lowerBoundLoop, vectorInsert, hnhg, merge]
    rw [hfinal]
    exact List.not_mem_nil _

/-- C3 (amended), at a concrete input: the flagged `FOO_H` of the counterexample unit was
a confirmed use, and the unit of the claim leaves no entry for `FOO_H`. -/
theorem C3_flagged_entries_come_from_confirmed_witness :
    (⟨"FOO_H", ⟨1⟩⟩ : UsedMacro) ∈
      (deliverAll (frontEndWithGuard "FOO_H") initial
        [Event.Ifndef (sampleToken "FOO_H" 1 1) noDefinition,
         Event.MacroDefined (sampleToken "FOO_H" 1 2) (some (sampleDirective 1)),
         Event.Ifdef (sampleToken "FOO_H" 1 3) (liveDefinition 1)]).m_usedMacros ∧
    (⟨"FOO_H", ⟨1⟩⟩ : UsedMacro) ∉
      (deliverAll (frontEndWithGuard "FOO_H") initial
        [Event.Ifndef (sampleToken "FOO_H" 1 1) noDefinition,
         Event.MacroDefined (sampleToken "FOO_H" 1 2) (some (sampleDirective 1)),
         Event.EndOfMainFile]).m_usedMacros :=
  ⟨C3_flagged_entries_come_from_confirmed.1 (frontEndWithGuard "FOO_H")
      (deliverAll (frontEndWithGuard "FOO_H") initial
        [Event.Ifndef (sampleToken "FOO_H" 1 1) noDefinition,
         Event.MacroDefined (sampleToken "FOO_H" 1 2) (some (sampleDirective 1)),
         Event.Ifdef (sampleToken "FOO_H" 1 3) (liveDefinition 1)])
      ⟨"FOO_H", ⟨1⟩⟩ (by decide) (by decide),
   C3_flagged_entries_come_from_confirmed.2 (frontEndWithGuard "FOO_H")
      (sampleToken "FOO_H" 1 1) (some (sampleDirective 1)) (by decide) ⟨1⟩⟩

theorem notExport_iff (usedMacro : UsedMacro) :
    notExport usedMacro = true ↔ ¬ "EXPORT".toList <:+: usedMacro.macroName.toList := by
  unfold notExport
  rw [Bool.not_eq_true', ← contains_iff, Bool.not_eq_true]

/-- C4: `filterOutExports` keeps exactly the entries of the used container whose name
does not contain `EXPORT` as a contiguous run of characters, in their order; so after
`EndOfMainFile` no entry of the final used sequence has such a name, whatever the two
containers held before, and a unit that only expands a defined `MYLIB_EXPORT` ends with an
empty used sequence. -/
theorem C4_filterOutExports_removes_export_names :
    (∀ self : CollectMacrosPreprocessorCallbacks,
      (filterOutExports self).m_usedMacros =
        self.m_usedMacros.filter
          (fun usedMacro => decide (¬ "EXPORT".toList <:+: usedMacro.macroName.toList))) ∧
    (∀ (frontEnd : FrontEnd) (self : CollectMacrosPreprocessorCallbacks),
      ∀ usedMacro ∈ (EndOfMainFile frontEnd self).m_usedMacros,
        ¬ "EXPORT".toList <:+: usedMacro.macroName.toList) ∧
    (∀ frontEnd : FrontEnd,
      (deliverAll frontEnd initial
        [Event.MacroExpands (sampleToken "MYLIB_EXPORT" 1 1) (liveDefinition 100),
         Event.EndOfMainFile]).m_usedMacros = []) := by
  refine ⟨?_, ?_, ?_⟩
  · intro self
    rw [filterOutExports_usedMacros]
    apply List.filter_congr
    intro usedMacro _
    rw [Bool.eq_iff_iff, notExport_iff, decide_eq_true_iff]
  · intro frontEnd self usedMacro hmem
    rw [EndOfMainFile_usedMacros] at hmem
    exact (notExport_iff usedMacro).mp (List.mem_filter.mp hmem).2
  · intro frontEnd
    simp only [deliverAll, List.foldl_cons, List.foldl_nil, deliver, MacroExpands]
    rw [EndOfMainFile_usedMacros]
    simp only [(addMacroAsSymbol_frame _ _ _ _ _).1, (addMacroAsSymbol_frame _ _ _ _ _).2.1]
    have hexport : notExport ⟨"MYLIB_EXPORT", ⟨1⟩⟩ = false := by decide
    simp [CollectMacrosPreprocessorCallbacks.addUsedMacro, liveDefinition, initial,
      ClangBackEnd.addUsedMacro, lowerBound, lowerBoundLoop, vectorInsert, merge, mergeInto,
      sampleToken, sampleLocation, filePathIdOfLocation, filePathIdOfEntry, hexport]

/-- C4, at a concrete input: `MYLIB_EXPORT` is confirmed used and `API_EXPORTS` is maybe
used before the end of the unit, `A` is confirmed used; only `A` is left. -/
theorem C4_filterOutExports_removes_export_names_witness :
    (EndOfMainFile (frontEndWithGuard "G")
        (deliverAll (frontEndWithGuard "G") initial
          [Event.MacroExpands (sampleToken "MYLIB_EXPORT" 1 1) (liveDefinition 100),
           Event.Ifdef (sampleToken "API_EXPORTS" 1 2) noDefinition,
           Event.MacroExpands (sampleToken "A" 1 3) (liveDefinition 101)])).m_usedMacros =
      [⟨"A", ⟨1⟩⟩] ∧
    ¬ "EXPORT".toList <:+: "A".toList :=
  ⟨by decide,
   C4_filterOutExports_removes_export_names.2.1 (frontEndWithGuard "G")
     (deliverAll (frontEndWithGuard "G") initial
        [Event.MacroExpands (sampleToken "MYLIB_EXPORT" 1 1) (liveDefinition 100),
         Event.Ifdef (sampleToken "API_EXPORTS" 1 2) noDefinition,
         Event.MacroExpands (sampleToken "A" 1 3) (liveDefinition 101)])
     ⟨"A", ⟨1⟩⟩ (by decide)⟩

/-- C5: when the used and the maybe used container are each sorted ascending,
`mergeUsedMacros` leaves the used container sorted ascending and a rearrangement of the
used entries followed by the maybe used entries, and does not change the maybe used
container; used `[(A,1),(C,1)]` and maybe used `[(B,1)]` give `[(A,1),(B,1),(C,1)]`. -/
theorem C5_mergeUsedMacros_sorted_union :
    (∀ self : CollectMacrosPreprocessorCallbacks,
      self.m_usedMacros.Sorted (· ≤ ·) → self.m_maybeUsedMacros.Sorted (· ≤ ·) →
      (mergeUsedMacros self).m_usedMacros.Sorted (· ≤ ·) ∧
      (mergeUsedMacros self).m_usedMacros.Perm (self.m_usedMacros ++ self.m_maybeUsedMacros) ∧
      (mergeUsedMacros self).m_maybeUsedMacros = self.m_maybeUsedMacros) ∧
    (mergeUsedMacros
      { initial with
        m_usedMacros := [⟨"A", ⟨1⟩⟩, ⟨"C", ⟨1⟩⟩]
        m_maybeUsedMacros := [⟨"B", ⟨1⟩⟩] }).m_usedMacros =
      [⟨"A", ⟨1⟩⟩, ⟨"B", ⟨1⟩⟩, ⟨"C", ⟨1⟩⟩] := by
  constructor
  · intro self hused hmaybe
    rw [mergeUsedMacros_usedMacros]
    exact ⟨merge_sorted hused hmaybe, merge_perm _ _, rfl⟩
  · decide

/-- C5, at a concrete input: `[(A,1),(C,2)]` and `[(A,1),(B,1)]`, both sorted. -/
theorem C5_mergeUsedMacros_sorted_union_witness :
    (mergeUsedMacros
      { initial with
        m_usedMacros := [⟨"A", ⟨1⟩⟩, ⟨"C", ⟨2⟩⟩]
        m_maybeUsedMacros := [⟨"A", ⟨1⟩⟩, ⟨"B", ⟨1⟩⟩] }).m_usedMacros.Sorted (· ≤ ·) ∧
    (mergeUsedMacros
      { initial with
        m_usedMacros := [⟨"A", ⟨1⟩⟩, ⟨"C", ⟨2⟩⟩]
        m_maybeUsedMacros := [⟨"A", ⟨1⟩⟩, ⟨"B", ⟨1⟩⟩] }).m_usedMacros.Perm
      ([⟨"A", ⟨1⟩⟩, ⟨"C", ⟨2⟩⟩] ++ [⟨"A", ⟨1⟩⟩, ⟨"B", ⟨1⟩⟩]) ∧
    (mergeUsedMacros
      { initial with
        m_usedMacros := [⟨"A", ⟨1⟩⟩, ⟨"C", ⟨2⟩⟩]
        m_maybeUsedMacros := [⟨"A", ⟨1⟩⟩, ⟨"B", ⟨1⟩⟩] }).m_maybeUsedMacros =
      [⟨"A", ⟨1⟩⟩, ⟨"B", ⟨1⟩⟩] :=
  C5_mergeUsedMacros_sorted_union.1
    { initial with
      m_usedMacros := [⟨"A", ⟨1⟩⟩, ⟨"C", ⟨2⟩⟩]
      m_maybeUsedMacros := [⟨"A", ⟨1⟩⟩, ⟨"B", ⟨1⟩⟩] }
    (by decide) (by decide)

/-! ## Order of the two used containers along an event stream -/

theorem memberAddUsedMacro_sorted (self : CollectMacrosPreprocessorCallbacks) (token : Token)
    (macroDefinition : MacroDefinition)
    (h : self.m_usedMacros.Sorted (· ≤ ·) ∧ self.m_maybeUsedMacros.Sorted (· ≤ ·)) :
    (self.addUsedMacro token macroDefinition).m_usedMacros.Sorted (· ≤ ·) ∧
    (self.addUsedMacro token macroDefinition).m_maybeUsedMacros.Sorted (· ≤ ·) := by
  unfold CollectMacrosPreprocessorCallbacks.addUsedMacro
  cases macroDefinition.getMacroInfo with
  | none => exact ⟨h.1, addUsedMacro_sorted h.2⟩
  | some info => exact ⟨addUsedMacro_sorted h.1, h.2⟩

theorem macroReference_sorted (frontEnd : FrontEnd) (self : CollectMacrosPreprocessorCallbacks)
    (token : Token) (macroDefinition : MacroDefinition) (macroInfo : Option MacroInfo)
    (symbolType : SymbolType)
    (h : self.m_usedMacros.Sorted (· ≤ ·) ∧ self.m_maybeUsedMacros.Sorted (· ≤ ·)) :
    (addMacroAsSymbol frontEnd (self.addUsedMacro token macroDefinition) token macroInfo
      symbolType).m_usedMacros.Sorted (· ≤ ·) ∧
    (addMacroAsSymbol frontEnd (self.addUsedMacro token macroDefinition) token macroInfo
      symbolType).m_maybeUsedMacros.Sorted (· ≤ ·) := by
  rw [(addMacroAsSymbol_frame _ _ _ _ _).1, (addMacroAsSymbol_frame _ _ _ _ _).2.1]
  exact memberAddUsedMacro_sorted self token macroDefinition h

theorem FileChanged_usedMacros (self : CollectMacrosPreprocessorCallbacks)
    (sourceLocation : SourceLocation) (reason : FileChangeReason) :
    (self.FileChanged sourceLocation reason).m_usedMacros = self.m_usedMacros ∧
    (self.FileChanged sourceLocation reason).m_maybeUsedMacros = self.m_maybeUsedMacros := by
  unfold FileChanged
  split
  · split
    · unfold addSourceFile
      simp only
      split <;> exact ⟨rfl, rfl⟩
    · exact ⟨rfl, rfl⟩
  · exact ⟨rfl, rfl⟩

theorem InclusionDirective_usedMacros (self : CollectMacrosPreprocessorCallbacks)
    (hashLocation : SourceLocation) (file : Option FileEntry) :
    (self.InclusionDirective hashLocation file).m_usedMacros = self.m_usedMacros ∧
    (self.InclusionDirective hashLocation file).m_maybeUsedMacros = self.m_maybeUsedMacros := by
  unfold InclusionDirective
  simp only
  split
  · cases file <;> exact ⟨rfl, rfl⟩
  · exact ⟨rfl, rfl⟩

theorem deliver_sorted (frontEnd : FrontEnd) (self : CollectMacrosPreprocessorCallbacks)
    (event : Event)
    (h : self.m_usedMacros.Sorted (· ≤ ·) ∧ self.m_maybeUsedMacros.Sorted (· ≤ ·)) :
    (deliver frontEnd self event).m_usedMacros.Sorted (· ≤ ·) ∧
    (deliver frontEnd self event).m_maybeUsedMacros.Sorted (· ≤ ·) := by
  cases event with
  | FileChanged sourceLocation reason =>
    simp only [deliver]
    rw [(FileChanged_usedMacros _ _ _).1, (FileChanged_usedMacros _ _ _).2]
    exact h
  | InclusionDirective hashLocation file =>
    simp only [deliver]
    rw [(InclusionDirective_usedMacros _ _ _).1, (InclusionDirective_usedMacros _ _ _).2]
    exact h
  | FileNotFound => exact h
  | Ifndef token macroDefinition => exact macroReference_sorted frontEnd self _ _ _ _ h
  | Ifdef token macroDefinition => exact macroReference_sorted frontEnd self _ _ _ _ h
  | Defined token macroDefinition => exact macroReference_sorted frontEnd self _ _ _ _ h
  | MacroDefined token macroDirective =>
    simp only [deliver, MacroDefined]
    rw [(addMacroAsSymbol_frame _ _ _ _ _).1, (addMacroAsSymbol_frame _ _ _ _ _).2.1]
    exact h
  | MacroUndefined token macroDefinition =>
    simp only [deliver, MacroUndefined]
    rw [(addMacroAsSymbol_frame _ _ _ _ _).1, (addMacroAsSymbol_frame _ _ _ _ _).2.1]
    exact h
  | MacroExpands token macroDefinition => exact macroReference_sorted frontEnd self _ _ _ _ h
  | EndOfMainFile =>
    simp only [deliver]
    rw [EndOfMainFile_usedMacros, EndOfMainFile_maybeUsedMacros]
    exact ⟨(merge_sorted h.1 (h.2.filter _)).filter _, h.2.filter _⟩

theorem deliverAll_sorted (frontEnd : FrontEnd) (events : List Event) :
    ∀ self : CollectMacrosPreprocessorCallbacks,
      self.m_usedMacros.Sorted (· ≤ ·) ∧ self.m_maybeUsedMacros.Sorted (· ≤ ·) →
      (deliverAll frontEnd self events).m_usedMacros.Sorted (· ≤ ·) ∧
      (deliverAll frontEnd self events).m_maybeUsedMacros.Sorted (· ≤ ·) := by
  induction events with
  | nil => exact fun self h => h
  | cons event events ih =>
    intro self h
    exact ih (deliver frontEnd self event) (deliver_sorted frontEnd self event h)

/-- C6: for every sequence of events delivered to the empty containers and followed by
`EndOfMainFile`, the final used sequence is sorted ascending by `(macroName, fileId)`. -/
theorem C6_final_used_sequence_sorted (frontEnd : FrontEnd) (events : List Event) :
    (EndOfMainFile frontEnd (deliverAll frontEnd initial events)).m_usedMacros.Sorted (· ≤ ·) ∧
    (deliverAll frontEnd initial (events ++ [Event.EndOfMainFile])).m_usedMacros.Sorted
      (· ≤ ·) :=
  ⟨(deliver_sorted frontEnd _ Event.EndOfMainFile
      (deliverAll_sorted frontEnd events initial
        ⟨List.sorted_nil, List.sorted_nil⟩)).1,
   (deliverAll_sorted frontEnd (events ++ [Event.EndOfMainFile]) initial
      ⟨List.sorted_nil, List.sorted_nil⟩).1⟩

/-- C7: the static `addUsedMacro` takes a strictly ascending container to a strictly
ascending container whose elements are the given entry and the old elements. -/
theorem C7_addUsedMacro_keeps_strictly_ascending (usedMacro : UsedMacro)
    (usedMacros : UsedMacros) (hsorted : usedMacros.Sorted (· < ·)) :
    (addUsedMacro usedMacro usedMacros).Sorted (· < ·) ∧
    ∀ x, x ∈ addUsedMacro usedMacro usedMacros ↔ x = usedMacro ∨ x ∈ usedMacros :=
  ⟨addUsedMacro_strictSorted hsorted, mem_addUsedMacro hsorted.le_of_lt⟩

/-- C7, at a concrete input: `(B,1)` into `[(A,1),(B,2),(C,1)]`. -/
theorem C7_addUsedMacro_keeps_strictly_ascending_witness :
    [(⟨"A", ⟨1⟩⟩ : UsedMacro), ⟨"B", ⟨2⟩⟩, ⟨"C", ⟨1⟩⟩].Sorted (· < ·) ∧
    addUsedMacro ⟨"B", ⟨1⟩⟩ [⟨"A", ⟨1⟩⟩, ⟨"B", ⟨2⟩⟩, ⟨"C", ⟨1⟩⟩] =
      [⟨"A", ⟨1⟩⟩, ⟨"B", ⟨1⟩⟩, ⟨"B", ⟨2⟩⟩, ⟨"C", ⟨1⟩⟩] ∧
    (addUsedMacro ⟨"B", ⟨1⟩⟩ [⟨"A", ⟨1⟩⟩, ⟨"B", ⟨2⟩⟩, ⟨"C", ⟨1⟩⟩]).Sorted (· < ·) :=
  ⟨by decide, by decide,
   (C7_addUsedMacro_keeps_strictly_ascending ⟨"B", ⟨1⟩⟩
      [⟨"A", ⟨1⟩⟩, ⟨"B", ⟨2⟩⟩, ⟨"C", ⟨1⟩⟩] (by decide)).1⟩

theorem foldl_addUsedMacro_strictSorted (entries : List UsedMacro) :
    ∀ usedMacros : UsedMacros, usedMacros.Sorted (· < ·) →
      (entries.foldl (fun container entry => addUsedMacro entry container) usedMacros).Sorted
        (· < ·) := by
  induction entries with
  | nil => exact fun usedMacros h => h
  | cons entry entries ih =>
    intro usedMacros h
    exact ih (addUsedMacro entry usedMacros) (addUsedMacro_strictSorted h)

/-- C8: in a sorted container the insertion of an entry that is present changes nothing,
and inserting an entry twice gives what inserting it once gives; a container built from
the empty one by insertions holds no entry twice. -/
theorem C8_addUsedMacro_idempotent :
    (∀ (usedMacro : UsedMacro) (usedMacros : UsedMacros),
      usedMacros.Sorted (· ≤ ·) →
      (usedMacro ∈ usedMacros → addUsedMacro usedMacro usedMacros = usedMacros) ∧
      addUsedMacro usedMacro (addUsedMacro usedMacro usedMacros) =
        addUsedMacro usedMacro usedMacros) ∧
    (∀ entries : List UsedMacro,
      (entries.foldl (fun container entry => addUsedMacro entry container) []).Nodup) := by
  constructor
  · intro usedMacro usedMacros hsorted
    refine ⟨addUsedMacro_of_mem hsorted, ?_⟩
    exact addUsedMacro_of_mem (addUsedMacro_sorted hsorted)
      ((mem_addUsedMacro hsorted usedMacro).mpr (Or.inl rfl))
  · intro entries
    exact (foldl_addUsedMacro_strictSorted entries [] List.sorted_nil).nodup

/-- C8, at a concrete input: `(B,1)` into `[(A,1),(B,1),(C,1)]`, which holds it. -/
theorem C8_addUsedMacro_idempotent_witness :
    [(⟨"A", ⟨1⟩⟩ : UsedMacro), ⟨"B", ⟨1⟩⟩, ⟨"C", ⟨1⟩⟩].Sorted (· ≤ ·) ∧
    addUsedMacro ⟨"B", ⟨1⟩⟩ [⟨"A", ⟨1⟩⟩, ⟨"B", ⟨1⟩⟩, ⟨"C", ⟨1⟩⟩] =
      [⟨"A", ⟨1⟩⟩, ⟨"B", ⟨1⟩⟩, ⟨"C", ⟨1⟩⟩] :=
  ⟨by decide,
   (C8_addUsedMacro_idempotent.1 ⟨"B", ⟨1⟩⟩ [⟨"A", ⟨1⟩⟩, ⟨"B", ⟨1⟩⟩, ⟨"C", ⟨1⟩⟩]
      (by decide)).1 (by decide)⟩

/-! ## The suppression flag along an event stream -/

theorem deliver_skipInclude (frontEnd : FrontEnd) (self : CollectMacrosPreprocessorCallbacks)
    (event : Event) :
    (deliver frontEnd self event).m_skipInclude =
      match event with
      | .FileNotFound => true
      | .InclusionDirective _ _ => false
      | _ => self.m_skipInclude := by
  cases event with
  | FileChanged sourceLocation reason =>
    simp only [deliver, FileChanged]
    split
    · split
      · unfold addSourceFile
        simp only
        split <;> rfl
      · rfl
    · rfl
  | InclusionDirective hashLocation file => rfl
  | FileNotFound => rfl
  | Ifndef token macroDefinition =>
    simp only [deliver, Ifndef]
    rw [(addMacroAsSymbol_frame _ _ _ _ _).2.2.2.2.2, (addUsedMacro_frame _ _ _).2.2.2.2.2]
  | Ifdef token macroDefinition =>
    simp only [deliver, Ifdef]
    rw [(addMacroAsSymbol_frame _ _ _ _ _).2.2.2.2.2, (addUsedMacro_frame _ _ _).2.2.2.2.2]
  | Defined token macroDefinition =>
    simp only [deliver, Defined]
    rw [(addMacroAsSymbol_frame _ _ _ _ _).2.2.2.2.2, (addUsedMacro_frame _ _ _).2.2.2.2.2]
  | MacroDefined token macroDirective =>
    simp only [deliver, MacroDefined]
    rw [(addMacroAsSymbol_frame _ _ _ _ _).2.2.2.2.2]
  | MacroUndefined token macroDefinition =>
    simp only [deliver, MacroUndefined]
    rw [(addMacroAsSymbol_frame _ _ _ _ _).2.2.2.2.2]
  | MacroExpands token macroDefinition =>
    simp only [deliver, MacroExpands]
    rw [(addMacroAsSymbol_frame _ _ _ _ _).2.2.2.2.2, (addUsedMacro_frame _ _ _).2.2.2.2.2]
  | EndOfMainFile => rfl

theorem deliverAll_skipInclude (frontEnd : FrontEnd) (events : List Event) :
    ∀ self : CollectMacrosPreprocessorCallbacks,
      (deliverAll frontEnd self events).m_skipInclude = true ↔
        (∃ before after, events = before ++ Event.FileNotFound :: after ∧
          ∀ event ∈ after, event.isInclusionDirective = false) ∨
        (self.m_skipInclude = true ∧ ∀ event ∈ events, event.isInclusionDirective = false) := by
  induction events with
  | nil =>
    intro self
    simp [deliverAll]
  | cons head rest ih =>
    intro self
    have hstep : (deliverAll frontEnd self (head :: rest)).m_skipInclude =
        (deliverAll frontEnd (deliver frontEnd self head) rest).m_skipInclude := rfl
    rw [hstep, ih (deliver frontEnd self head), deliver_skipInclude]
    have hsplit : (∃ before after, head :: rest = before ++ Event.FileNotFound :: after ∧
          ∀ event ∈ after, event.isInclusionDirective = false) ↔
        (head = Event.FileNotFound ∧ ∀ event ∈ rest, event.isInclusionDirective = false) ∨
        (∃ before after, rest = before ++ Event.FileNotFound :: after ∧
          ∀ event ∈ after, event.isInclusionDirective = false) := by
      constructor
      · rintro ⟨before, after, heq, hafter⟩
        cases before with
        | nil =>
          simp only [List.nil_append, List.cons.injEq] at heq
          exact Or.inl ⟨heq.1, by rw [heq.2]; exact hafter⟩
        | cons b before =>
          simp only [List.cons_append, List.cons.injEq] at heq
          exact Or.inr ⟨before, after, heq.2, hafter⟩
      · rintro (⟨hhead, hrest⟩ | ⟨before, after, heq, hafter⟩)
        · exact ⟨[], rest, by rw [hhead]; rfl, hrest⟩
        · exact ⟨head :: before, after, by rw [heq]; rfl, hafter⟩
    rw [hsplit]
    clear hsplit hstep ih
    simp only [List.forall_mem_cons]
    generalize (∃ before after, rest = before ++ Event.FileNotFound :: after ∧
      ∀ event ∈ after, event.isInclusionDirective = false) = split
    generalize (∀ event ∈ rest, event.isInclusionDirective = false) = quiet
    cases head
    all_goals simp only [Event.isInclusionDirective, reduceCtorEq, false_and, false_or,
      true_and, and_true, Bool.false_eq_true, Bool.true_eq_false, or_false]
    all_goals tauto

/-- C9: an `InclusionDirective` always leaves the suppression flag clear, and it appends
the edge (file of the directive, included file) exactly when the included file was found
and the flag was clear, leaving the dependencies as they were otherwise; along an event
stream from the initial object the flag is set exactly when a `FileNotFound` has been
raised with no `InclusionDirective` after it. So `FileNotFound`, `InclusionDirective` of a
missing header, `InclusionDirective` of a present header record no edge for the first
directive and one edge for the second. -/
theorem C9_inclusion_directive_and_file_not_found :
    (∀ (self : CollectMacrosPreprocessorCallbacks) (hashLocation : SourceLocation)
        (file : Option FileEntry),
      (self.InclusionDirective hashLocation file).m_skipInclude = false ∧
      (self.InclusionDirective hashLocation file).m_sourceDependencies =
        match file with
        | some fileEntry =>
          if self.m_skipInclude = true then self.m_sourceDependencies
          else self.m_sourceDependencies ++
            [⟨filePathIdOfLocation hashLocation, fileEntry.filePathId⟩]
        | none => self.m_sourceDependencies) ∧
    (∀ (frontEnd : FrontEnd) (events : List Event),
      (deliverAll frontEnd initial events).m_skipInclude = true ↔
        ∃ before after, events = before ++ Event.FileNotFound :: after ∧
          ∀ event ∈ after, event.isInclusionDirective = false) ∧
    (∀ (frontEnd : FrontEnd) (self : CollectMacrosPreprocessorCallbacks)
        (missingLocation presentLocation : SourceLocation) (present : FileEntry),
      (deliverAll frontEnd self
        [Event.FileNotFound, Event.InclusionDirective missingLocation none]).m_sourceDependencies
        = self.m_sourceDependencies ∧
      (deliverAll frontEnd self
        [Event.FileNotFound, Event.InclusionDirective missingLocation none,
         Event.InclusionDirective presentLocation (some present)]).m_sourceDependencies
        = self.m_sourceDependencies ++
            [⟨filePathIdOfLocation presentLocation, present.filePathId⟩]) := by
  refine ⟨?_, ?_, ?_⟩
  · intro self hashLocation file
    refine ⟨rfl, ?_⟩
    unfold InclusionDirective
    cases file with
    | none => cases self.m_skipInclude <;> rfl
    | some fileEntry => cases self.m_skipInclude <;> rfl
  · intro frontEnd events
    rw [deliverAll_skipInclude frontEnd events initial]
    constructor
    · rintro (h | ⟨h, _⟩)
      · exact h
      · exact absurd h (by decide)
    · exact fun h => Or.inl h
  · intro frontEnd self missingLocation presentLocation present
    exact ⟨rfl, rfl⟩

/-- C9, at a concrete input: two present headers, the first one after a `FileNotFound`. -/
theorem C9_inclusion_directive_and_file_not_found_witness :
    (deliverAll (frontEndWithGuard "G") initial
      [Event.FileNotFound,
       Event.InclusionDirective (sampleLocation 1 1) (some ⟨⟨2⟩, 10, 20⟩)]).m_skipInclude = false ∧
    ((deliverAll (frontEndWithGuard "G") initial
      [Event.FileNotFound]).InclusionDirective (sampleLocation 1 1)
        (some ⟨⟨2⟩, 10, 20⟩)).m_sourceDependencies = [] ∧
    ((deliverAll (frontEndWithGuard "G") initial
      [Event.FileNotFound,
       Event.InclusionDirective (sampleLocation 1 1) (some ⟨⟨2⟩, 10, 20⟩)]).InclusionDirective
        (sampleLocation 1 2) (some ⟨⟨3⟩, 10, 20⟩)).m_sourceDependencies = [⟨⟨1⟩, ⟨3⟩⟩] :=
  ⟨by
    have h := (C9_inclusion_directive_and_file_not_found.2.1 (frontEndWithGuard "G")
      [Event.FileNotFound,
       Event.InclusionDirective (sampleLocation 1 1) (some ⟨⟨2⟩, 10, 20⟩)]).not
    exact Bool.eq_false_iff.mpr (h.mpr (by
      rintro ⟨before, after, heq, hafter⟩
      cases before with
      | nil =>
        simp only [List.nil_append, List.cons.injEq, true_and] at heq
        rw [← heq] at hafter
        exact absurd (hafter _ (List.mem_cons_self _ _)) (by decide)
      | cons b before =>
        cases before with
        | nil => simp at heq
        | cons c before => simp at heq)),
   (C9_inclusion_directive_and_file_not_found.1 _ _ _).2,
   (C9_inclusion_directive_and_file_not_found.1 _ _ _).2⟩

/-- C10, evaluation at the failing input: the file with id 2 is entered, then the file
with id 1; `addSourceFile` searches with `std::find`, which gives `end()` for an absent
id, so the new id goes to the end and the list is `[2, 1]`, not ascending. -/
theorem C10_source_files_in_entry_order :
    (deliverAll (frontEndWithGuard "G") initial
      [Event.FileChanged (sampleLocation 2 1) FileChangeReason.EnterFile,
       Event.FileChanged (sampleLocation 1 1) FileChangeReason.EnterFile]).m_sourceFiles =
      [⟨2⟩, ⟨1⟩] ∧
    ¬ ([⟨2⟩, ⟨1⟩] : FilePathIds).Sorted (fun a b => a.filePathId < b.filePathId) := by
  decide

/-! ## Facts about the source files and the file informations -/

theorem find_le_length {α : Type} [DecidableEq α] (value : α) (xs : List α) :
    find value xs ≤ xs.length := by
  induction xs with
  | nil => exact Nat.le_refl _
  | cons x xs ih =>
    simp only [find, List.length_cons]
    split
    · exact Nat.zero_le _
    · exact Nat.succ_le_succ ih

theorem find_eq_length_iff {α : Type} [DecidableEq α] (value : α) (xs : List α) :
    find value xs = xs.length ↔ value ∉ xs := by
  induction xs with
  | nil => simp [find]
  | cons x xs ih =>
    simp only [find, List.length_cons, List.mem_cons, not_or]
    by_cases h : x = value
    · simp [h]
    · rw [if_neg h, Nat.succ_inj', ih]
      exact ⟨fun hmem => ⟨fun heq => h heq.symm, hmem⟩, fun hmem => hmem.2⟩

theorem getElem?_find_of_mem {α : Type} [DecidableEq α] {value : α} {xs : List α}
    (hmem : value ∈ xs) : xs[find value xs]? = some value := by
  induction xs with
  | nil => exact absurd hmem (List.not_mem_nil _)
  | cons x xs ih =>
    simp only [find]
    by_cases h : x = value
    · simp [h]
    · rw [if_neg h, List.getElem?_cons_succ]
      rcases List.mem_cons.mp hmem with heq | hrest
      · exact absurd heq.symm h
      · exact ih hrest

theorem vectorInsert_length {α : Type} (xs : List α) (value : α) :
    vectorInsert xs xs.length value = xs ++ [value] := by
  unfold vectorInsert
  rw [List.take_length, List.drop_length]

theorem addSourceFile_sourceFiles (self : CollectMacrosPreprocessorCallbacks)
    (file : FileEntry) :
    (addSourceFile self file).m_sourceFiles =
      if file.filePathId ∈ self.m_sourceFiles then self.m_sourceFiles
      else self.m_sourceFiles ++ [file.filePathId] := by
  unfold addSourceFile
  simp only [filePathIdOfEntry]
  by_cases hmem : file.filePathId ∈ self.m_sourceFiles
  · have hget := getElem?_find_of_mem hmem
    have hne : find file.filePathId self.m_sourceFiles ≠ self.m_sourceFiles.length :=
      fun h => (find_eq_length_iff _ _).mp h hmem
    rw [if_pos hmem, if_neg]
    rintro (h | h)
    · exact hne h
    · exact h hget
  · have heq := (find_eq_length_iff _ _).mpr hmem
    rw [if_neg hmem, if_pos (Or.inl heq), heq]
    exact vectorInsert_length _ _

theorem addSourceFile_fileInformations (self : CollectMacrosPreprocessorCallbacks)
    (file : FileEntry) :
    (addSourceFile self file).m_fileInformations = self.m_fileInformations := by
  unfold addSourceFile
  simp only
  split <;> rfl

theorem deliver_sourceFiles (frontEnd : FrontEnd) (self : CollectMacrosPreprocessorCallbacks)
    (event : Event) :
    (deliver frontEnd self event).m_sourceFiles =
      match event.enteredFile with
      | some id => if id ∈ self.m_sourceFiles then self.m_sourceFiles
                   else self.m_sourceFiles ++ [id]
      | none => self.m_sourceFiles := by
  cases event with
  | FileChanged sourceLocation reason =>
    simp only [deliver, FileChanged, Event.enteredFile]
    by_cases hreason : reason = FileChangeReason.EnterFile
    · rw [if_pos hreason, if_pos hreason]
      cases sourceLocation.fileEntry with
      | none => rfl
      | some fileEntry => exact addSourceFile_sourceFiles _ fileEntry
    · rw [if_neg hreason, if_neg hreason]
  | InclusionDirective hashLocation file =>
    simp only [deliver, InclusionDirective, Event.enteredFile]
    split
    · cases file <;> rfl
    · rfl
  | FileNotFound => rfl
  | Ifndef token macroDefinition =>
    simp only [deliver, Ifndef, Event.enteredFile]
    rw [(addMacroAsSymbol_frame _ _ _ _ _).2.2.1, (addUsedMacro_frame _ _ _).2.2.1]
  | Ifdef token macroDefinition =>
    simp only [deliver, Ifdef, Event.enteredFile]
    rw [(addMacroAsSymbol_frame _ _ _ _ _).2.2.1, (addUsedMacro_frame _ _ _).2.2.1]
  | Defined token macroDefinition =>
    simp only [deliver, Defined, Event.enteredFile]
    rw [(addMacroAsSymbol_frame _ _ _ _ _).2.2.1, (addUsedMacro_frame _ _ _).2.2.1]
  | MacroDefined token macroDirective =>
    simp only [deliver, MacroDefined, Event.enteredFile]
    rw [(addMacroAsSymbol_frame _ _ _ _ _).2.2.1]
  | MacroUndefined token macroDefinition =>
    simp only [deliver, MacroUndefined, Event.enteredFile]
    rw [(addMacroAsSymbol_frame _ _ _ _ _).2.2.1]
  | MacroExpands token macroDefinition =>
    simp only [deliver, MacroExpands, Event.enteredFile]
    rw [(addMacroAsSymbol_frame _ _ _ _ _).2.2.1, (addUsedMacro_frame _ _ _).2.2.1]
  | EndOfMainFile => rfl

theorem deliver_fileInformations (frontEnd : FrontEnd)
    (self : CollectMacrosPreprocessorCallbacks) (event : Event) :
    ((deliver frontEnd self event).m_fileInformations.map fun info => info.filePathId) =
      (self.m_fileInformations.map fun info => info.filePathId) ++
        (event.enteredFile).toList := by
  cases event with
  | FileChanged sourceLocation reason =>
    simp only [deliver, FileChanged, Event.enteredFile]
    by_cases hreason : reason = FileChangeReason.EnterFile
    · rw [if_pos hreason, if_pos hreason]
      cases sourceLocation.fileEntry with
      | none => simp
      | some fileEntry =>
        simp only [addSourceFile_fileInformations, filePathIdOfEntry, List.map_append,
          List.map_cons, List.map_nil, Option.map_some', Option.toList_some]
    · rw [if_neg hreason, if_neg hreason]
      simp
  | InclusionDirective hashLocation file =>
    simp only [deliver, InclusionDirective, Event.enteredFile, Option.toList_none,
      List.append_nil]
    split
    · cases file <;> rfl
    · rfl
  | FileNotFound => simp [deliver, FileNotFound, Event.enteredFile]
  | Ifndef token macroDefinition =>
    simp only [deliver, Ifndef, Event.enteredFile, Option.toList_none, List.append_nil]
    rw [(addMacroAsSymbol_frame _ _ _ _ _).2.2.2.1, (addUsedMacro_frame _ _ _).2.2.2.1]
  | Ifdef token macroDefinition =>
    simp only [deliver, Ifdef, Event.enteredFile, Option.toList_none, List.append_nil]
    rw [(addMacroAsSymbol_frame _ _ _ _ _).2.2.2.1, (addUsedMacro_frame _ _ _).2.2.2.1]
  | Defined token macroDefinition =>
    simp only [deliver, Defined, Event.enteredFile, Option.toList_none, List.append_nil]
    rw [(addMacroAsSymbol_frame _ _ _ _ _).2.2.2.1, (addUsedMacro_frame _ _ _).2.2.2.1]
  | MacroDefined token macroDirective =>
    simp only [deliver, MacroDefined, Event.enteredFile, Option.toList_none, List.append_nil]
    rw [(addMacroAsSymbol_frame _ _ _ _ _).2.2.2.1]
  | MacroUndefined token macroDefinition =>
    simp only [deliver, MacroUndefined, Event.enteredFile, Option.toList_none,
      List.append_nil]
    rw [(addMacroAsSymbol_frame _ _ _ _ _).2.2.2.1]
  | MacroExpands token macroDefinition =>
    simp only [deliver, MacroExpands, Event.enteredFile, Option.toList_none, List.append_nil]
    rw [(addMacroAsSymbol_frame _ _ _ _ _).2.2.2.1, (addUsedMacro_frame _ _ _).2.2.2.1]
  | EndOfMainFile => simp [deliver, EndOfMainFile, filterOutExports, mergeUsedMacros,
      filterOutHeaderGuards, Event.enteredFile]

theorem mem_distinctInOrder (ids : List FilePathId) (id : FilePathId) :
    id ∈ distinctInOrder ids ↔ id ∈ ids := by
  induction ids with
  | nil => simp [distinctInOrder]
  | cons head rest ih =>
    simp only [distinctInOrder, List.mem_cons, List.mem_filter, decide_eq_true_eq, ih]
    by_cases h : id = head
    · simp [h]
    · simp [h]

theorem distinctInOrder_nodup (ids : List FilePathId) : (distinctInOrder ids).Nodup := by
  induction ids with
  | nil => exact List.nodup_nil
  | cons head rest ih =>
    simp only [distinctInOrder]
    refine List.nodup_cons.mpr ⟨?_, ih.filter _⟩
    intro hmem
    have := (List.mem_filter.mp hmem).2
    simp at this

theorem foldl_enter (ids : List FilePathId) :
    ∀ files : List FilePathId,
      ids.foldl (fun files id => if id ∈ files then files else files ++ [id]) files =
        files ++ (distinctInOrder ids).filter (fun id => decide (id ∉ files)) := by
  induction ids with
  | nil =>
    intro files
    simp [distinctInOrder]
  | cons head rest ih =>
    intro files
    simp only [List.foldl_cons, distinctInOrder]
    by_cases hmem : head ∈ files
    · rw [if_pos hmem, ih files, List.filter_cons_of_neg (by simpa using hmem),
        List.filter_filter]
      congr 1
      apply List.filter_congr
      intro id _
      by_cases hid : id ∈ files
      · simp [hid]
      · have hne : id ≠ head := fun h => hid (h ▸ hmem)
        simp [hid, hne]
    · rw [if_neg hmem, ih (files ++ [head]), List.filter_cons_of_pos (by simpa using hmem),
        List.filter_filter, List.append_assoc, List.singleton_append]
      congr 2
      apply List.filter_congr
      intro id _
      simp only [List.mem_append, List.mem_singleton, not_or, Bool.decide_and, ne_eq,
        Bool.and_comm]

theorem deliverAll_sourceFiles (frontEnd : FrontEnd) (events : List Event) :
    ∀ self : CollectMacrosPreprocessorCallbacks,
      (deliverAll frontEnd self events).m_sourceFiles =
        (enteredFiles events).foldl
          (fun files id => if id ∈ files then files else files ++ [id]) self.m_sourceFiles := by
  induction events with
  | nil => exact fun self => rfl
  | cons event events ih =>
    intro self
    have hstep : deliverAll frontEnd self (event :: events) =
        deliverAll frontEnd (deliver frontEnd self event) events := rfl
    rw [hstep, ih, deliver_sourceFiles]
    unfold enteredFiles
    cases hentered : event.enteredFile with
    | none => rw [List.filterMap_cons_none hentered]
    | some id => rw [List.filterMap_cons_some hentered, List.foldl_cons]

theorem sourceFiles_eq_distinctInOrder (frontEnd : FrontEnd) (events : List Event) :
    (deliverAll frontEnd initial events).m_sourceFiles =
      distinctInOrder (enteredFiles events) := by
  rw [deliverAll_sourceFiles, foldl_enter]
  simp [initial]

theorem deliverAll_fileInformations (frontEnd : FrontEnd) (events : List Event) :
    ∀ self : CollectMacrosPreprocessorCallbacks,
      ((deliverAll frontEnd self events).m_fileInformations.map fun info => info.filePathId) =
        (self.m_fileInformations.map fun info => info.filePathId) ++ enteredFiles events := by
  induction events with
  | nil =>
    intro self
    simp [deliverAll, enteredFiles]
  | cons event events ih =>
    intro self
    have hstep : deliverAll frontEnd self (event :: events) =
        deliverAll frontEnd (deliver frontEnd self event) events := rfl
    rw [hstep, ih, deliver_fileInformations, List.append_assoc]
    congr 1
    unfold enteredFiles
    cases hentered : event.enteredFile with
    | none => rw [List.filterMap_cons_none hentered]; rfl
    | some id => rw [List.filterMap_cons_some hentered]; rfl

/-- C11: after every sequence of events delivered to the empty list, the source file list
holds no id twice and holds the id of every file that was entered. -/
theorem C11_source_files_distinct_and_complete (frontEnd : FrontEnd) (events : List Event) :
    (deliverAll frontEnd initial events).m_sourceFiles.Nodup ∧
    ∀ id ∈ enteredFiles events, id ∈ (deliverAll frontEnd initial events).m_sourceFiles := by
  rw [sourceFiles_eq_distinctInOrder]
  exact ⟨distinctInOrder_nodup _, fun id hid => (mem_distinctInOrder _ id).mpr hid⟩

/-- C11, at a concrete input: the files 1 and 2 are entered, file 2 twice; the id 2 is in
the list. -/
theorem C11_source_files_distinct_and_complete_witness :
    (⟨2⟩ : FilePathId) ∈ (deliverAll (frontEndWithGuard "G") initial
      [Event.FileChanged (sampleLocation 1 1) FileChangeReason.EnterFile,
       Event.FileChanged (sampleLocation 2 1) FileChangeReason.EnterFile,
       Event.FileChanged (sampleLocation 1 2) FileChangeReason.ExitFile,
       Event.FileChanged (sampleLocation 2 1) FileChangeReason.EnterFile]).m_sourceFiles :=
  (C11_source_files_distinct_and_complete (frontEndWithGuard "G")
    [Event.FileChanged (sampleLocation 1 1) FileChangeReason.EnterFile,
     Event.FileChanged (sampleLocation 2 1) FileChangeReason.EnterFile,
     Event.FileChanged (sampleLocation 1 2) FileChangeReason.ExitFile,
     Event.FileChanged (sampleLocation 2 1) FileChangeReason.EnterFile]).2 ⟨2⟩ (by decide)

/-- C12, the claim as stated fails: the main file 1 enters the header 2 twice (a header
without guard); `FileChanged` appends a file information at each entry, so two entries
share the file id 2. -/
theorem C12_file_entered_twice_recorded_twice :
    (deliverAll (frontEndWithGuard "G") initial
      [Event.FileChanged (sampleLocation 1 1) FileChangeReason.EnterFile,
       Event.FileChanged (sampleLocation 2 1) FileChangeReason.EnterFile,
       Event.FileChanged (sampleLocation 1 2) FileChangeReason.ExitFile,
       Event.FileChanged (sampleLocation 2 1) FileChangeReason.EnterFile]).m_fileInformations =
      [⟨⟨1⟩, 0, 0⟩, ⟨⟨2⟩, 0, 0⟩, ⟨⟨2⟩, 0, 0⟩] := by
  decide

/-- C12 (amended): after every sequence of events delivered to the empty collections, the
file informations are one per entering event, in order: their file ids are the ids of the
files entered, repeats included. So no two entries share a file id exactly when no file
was entered twice. -/
theorem C12_file_information_per_entering_event (frontEnd : FrontEnd) (events : List Event) :
    ((deliverAll frontEnd initial events).m_fileInformations.map fun info => info.filePathId) =
      enteredFiles events ∧
    ((((deliverAll frontEnd initial events).m_fileInformations.map
        fun info => info.filePathId).Nodup) ↔ (enteredFiles events).Nodup) := by
  have h := deliverAll_fileInformations frontEnd events initial
  have hinitial : (initial.m_fileInformations.map fun info => info.filePathId) = [] := rfl
  rw [hinitial, List.nil_append] at h
  exact ⟨h, by rw [h]⟩

/-- C19: after every sequence of events delivered to the empty list, the source file list
is the sequence of the ids of the files entered with every repeat after the first
occurrence removed. -/
theorem C19_source_files_in_order_of_first_entry (frontEnd : FrontEnd) (events : List Event) :
    (deliverAll frontEnd initial events).m_sourceFiles =
      distinctInOrder (enteredFiles events) :=
  sourceFiles_eq_distinctInOrder frontEnd events

/-! ## Facts about redefinition chains -/

theorem firstDirective_getPrevious (macroDirective : MacroDirective) :
    (firstDirective macroDirective).getPrevious = none := by
  induction macroDirective with
  | first macroInfo => rfl
  | next macroInfo previous ih => exact ih

theorem firstDirective_of_mem_chain {newest macroDirective : MacroDirective}
    (hmem : macroDirective ∈ newest.chain) :
    firstDirective macroDirective = firstDirective newest := by
  induction newest with
  | first macroInfo =>
    simp only [MacroDirective.chain, List.mem_singleton] at hmem
    rw [hmem]
  | next macroInfo previous ih =>
    simp only [MacroDirective.chain, List.mem_cons] at hmem
    rcases hmem with h | h
    · rw [h]
    · rw [ih h]
      rfl

theorem chain_getLast? (newest : MacroDirective) :
    newest.chain.getLast? = some (firstDirective newest) := by
  induction newest with
  | first macroInfo => rfl
  | next macroInfo previous ih =>
    cases hprevious : previous.chain with
    | nil => rw [hprevious] at ih; simp at ih
    | cons head rest =>
      simp only [MacroDirective.chain, firstDirective, hprevious]
      rw [List.getLast?_cons_cons, ← hprevious, ih]

/-- C14: `firstMacroInfo` is a total function; for every directive of a chain it gives
the macro info of the last directive of the chain, the oldest one, which has no previous
directive; so any two directives of one chain give the same macro info and the same
symbol id; for a null directive it gives no macro info. -/
theorem C14_firstMacroInfo_is_the_oldest_of_the_chain :
    (∀ (newest oldest macroDirective : MacroDirective),
      newest.chain.getLast? = some oldest → macroDirective ∈ newest.chain →
      firstMacroInfo (some macroDirective) = oldest.getMacroInfo ∧
      oldest.getPrevious = none) ∧
    (∀ (newest first second : MacroDirective),
      first ∈ newest.chain → second ∈ newest.chain →
      firstMacroInfo (some first) = firstMacroInfo (some second) ∧
      (firstMacroInfo (some first)).map toSymbolIndex =
        (firstMacroInfo (some second)).map toSymbolIndex) ∧
    firstMacroInfo none = none := by
  refine ⟨?_, ?_, rfl⟩
  · intro newest oldest macroDirective hlast hmem
    rw [chain_getLast?] at hlast
    have holdest : firstDirective newest = oldest := Option.some.inj hlast
    constructor
    · show (firstDirective macroDirective).getMacroInfo = oldest.getMacroInfo
      rw [firstDirective_of_mem_chain hmem, holdest]
    · rw [← holdest]
      exact firstDirective_getPrevious newest
  · intro newest first second hfirst hsecond
    have h : firstMacroInfo (some first) = firstMacroInfo (some second) := by
      show (firstDirective first).getMacroInfo = (firstDirective second).getMacroInfo
      rw [firstDirective_of_mem_chain hfirst, firstDirective_of_mem_chain hsecond]
    exact ⟨h, by rw [h]⟩

/-- C14, at a concrete input: the chain second definition, undefinition, first definition;
the undefinition resolves to the macro info of the first definition, as the second
definition does. -/
theorem C14_firstMacroInfo_is_the_oldest_of_the_chain_witness :
    firstMacroInfo (some (.next none (.first (some ⟨100, false⟩)))) = some ⟨100, false⟩ ∧
    firstMacroInfo (some (.next none (.first (some ⟨100, false⟩)))) =
      firstMacroInfo
        (some (.next (some ⟨200, false⟩) (.next none (.first (some ⟨100, false⟩))))) :=
  ⟨(C14_firstMacroInfo_is_the_oldest_of_the_chain.1
      (.next (some ⟨200, false⟩) (.next none (.first (some ⟨100, false⟩))))
      (.first (some ⟨100, false⟩))
      (.next none (.first (some ⟨100, false⟩))) (by decide) (by decide)).1,
   (C14_firstMacroInfo_is_the_oldest_of_the_chain.2.1
      (.next (some ⟨200, false⟩) (.next none (.first (some ⟨100, false⟩))))
      (.next none (.first (some ⟨100, false⟩)))
      (.next (some ⟨200, false⟩) (.next none (.first (some ⟨100, false⟩))))
      (by decide) (by decide)).1⟩

/-! ## The redefinition unit -/

theorem addMacroAsSymbol_locations_of_valid (frontEnd : FrontEnd)
    (self : CollectMacrosPreprocessorCallbacks) (token : Token) (info : MacroInfo)
    (symbolType : SymbolType) (hvalid : token.atValidFilePosition = true) :
    (addMacroAsSymbol frontEnd self token (some info) symbolType).m_sourceLocationEntries =
      self.m_sourceLocationEntries ++
        [⟨toSymbolIndex info, filePathIdOfLocation token.getLocation,
          lineColum token.getLocation, symbolType⟩] := by
  unfold Token.atValidFilePosition at hvalid
  rw [Bool.and_eq_true] at hvalid
  unfold addMacroAsSymbol
  simp only [hvalid.1, hvalid.2, if_true]

/-- C13, the claim as stated fails: the first definition has the macro info at address
100, the second one the macro info at address 200; every occurrence is recorded under the
symbol id 100, so the symbol id of the usage is that of the first definition. -/
theorem C13_usage_grouped_under_first_definition :
    (deliverAll (frontEndWithGuard "G") initial
      (redefinitionUnit ⟨100, false⟩ ⟨200, false⟩ (sampleToken "X" 1 1) (sampleToken "X" 1 2)
        (sampleToken "X" 1 3) (sampleToken "X" 1 4))).m_sourceLocationEntries =
      [⟨100, ⟨1⟩, ⟨1, 1⟩, SymbolType.MacroDefinition⟩,
       ⟨100, ⟨1⟩, ⟨2, 1⟩, SymbolType.MacroUndefinition⟩,
       ⟨100, ⟨1⟩, ⟨3, 1⟩, SymbolType.MacroDefinition⟩,
       ⟨100, ⟨1⟩, ⟨4, 1⟩, SymbolType.MacroUsage⟩] := by
  decide

/-- C13 (amended): for the unit `#define X 1`, `#undef X`, `#define X 2`, use of `X` over
one redefinition chain, with the four name tokens at valid file positions, the location
entries are a definition, an undefinition, a definition and a usage, in this order, and
all four carry the symbol id of the macro info of the first definition, the oldest
directive of the chain. -/
theorem C13_redefinition_unit_one_symbol (frontEnd : FrontEnd) (firstInfo secondInfo : MacroInfo)
    (defined₁ undefined defined₂ used : Token)
    (h₁ : defined₁.atValidFilePosition = true) (h₂ : undefined.atValidFilePosition = true)
    (h₃ : defined₂.atValidFilePosition = true) (h₄ : used.atValidFilePosition = true) :
    (deliverAll frontEnd initial
      (redefinitionUnit firstInfo secondInfo defined₁ undefined defined₂
        used)).m_sourceLocationEntries =
      [⟨toSymbolIndex firstInfo, filePathIdOfLocation defined₁.getLocation,
          lineColum defined₁.getLocation, SymbolType.MacroDefinition⟩,
       ⟨toSymbolIndex firstInfo, filePathIdOfLocation undefined.getLocation,
          lineColum undefined.getLocation, SymbolType.MacroUndefinition⟩,
       ⟨toSymbolIndex firstInfo, filePathIdOfLocation defined₂.getLocation,
          lineColum defined₂.getLocation, SymbolType.MacroDefinition⟩,
       ⟨toSymbolIndex firstInfo, filePathIdOfLocation used.getLocation,
          lineColum used.getLocation, SymbolType.MacroUsage⟩] := by
  simp only [redefinitionUnit, deliverAll, List.foldl_cons, List.foldl_nil, deliver,
    MacroDefined, MacroUndefined, MacroExpands, firstMacroInfo, firstDirective,
    MacroDirective.getMacroInfo]
  rw [addMacroAsSymbol_locations_of_valid _ _ _ _ _ h₄, (addUsedMacro_frame _ _ _).2.1,
    addMacroAsSymbol_locations_of_valid _ _ _ _ _ h₃,
    addMacroAsSymbol_locations_of_valid _ _ _ _ _ h₂,
    addMacroAsSymbol_locations_of_valid _ _ _ _ _ h₁]
  rfl

/-- C13 (amended), at a concrete input: macro infos at the addresses 100 and 200, the
four tokens on the lines 1 to 4 of file 1. -/
theorem C13_redefinition_unit_one_symbol_witness :
    ((deliverAll (frontEndWithGuard "G") initial
      (redefinitionUnit ⟨100, false⟩ ⟨200, false⟩ (sampleToken "X" 1 1) (sampleToken "X" 1 2)
        (sampleToken "X" 1 3) (sampleToken "X" 1 4))).m_sourceLocationEntries.map
          fun entry => entry.symbolId) = [100, 100, 100, 100] :=
  congrArg (List.map fun entry => entry.symbolId)
    (C13_redefinition_unit_one_symbol (frontEndWithGuard "G") ⟨100, false⟩ ⟨200, false⟩
      (sampleToken "X" 1 1) (sampleToken "X" 1 2) (sampleToken "X" 1 3) (sampleToken "X" 1 4)
      (by decide) (by decide) (by decide) (by decide))

/-! ## The usage signals -/

theorem mem_addUsedMacro_self (usedMacro : UsedMacro) (usedMacros : UsedMacros) :
    usedMacro ∈ addUsedMacro usedMacro usedMacros := by
  by_cases hmem : usedMacro ∈ usedMacros
  · unfold addUsedMacro
    simp only
    split
    · exact (vectorInsert_perm _ _ _).mem_iff.mpr (List.mem_cons_self _ _)
    · exact hmem
  · rw [addUsedMacro_of_not_mem hmem]
    exact (vectorInsert_perm _ _ _).mem_iff.mpr (List.mem_cons_self _ _)

theorem usageSignal_usedMacros (frontEnd : FrontEnd) (self : CollectMacrosPreprocessorCallbacks)
    (token : Token) (macroDefinition : MacroDefinition) (macroInfo : Option MacroInfo)
    (symbolType : SymbolType) :
    (macroDefinition.getMacroInfo.isSome = true →
      (addMacroAsSymbol frontEnd (self.addUsedMacro token macroDefinition) token macroInfo
          symbolType).m_usedMacros =
        ClangBackEnd.addUsedMacro ⟨token.getName, filePathIdOfLocation token.getLocation⟩
          self.m_usedMacros ∧
      (addMacroAsSymbol frontEnd (self.addUsedMacro token macroDefinition) token macroInfo
          symbolType).m_maybeUsedMacros = self.m_maybeUsedMacros) ∧
    (macroDefinition.getMacroInfo = none →
      (addMacroAsSymbol frontEnd (self.addUsedMacro token macroDefinition) token macroInfo
          symbolType).m_maybeUsedMacros =
        ClangBackEnd.addUsedMacro ⟨token.getName, filePathIdOfLocation token.getLocation⟩
          self.m_maybeUsedMacros ∧
      (addMacroAsSymbol frontEnd (self.addUsedMacro token macroDefinition) token macroInfo
          symbolType).m_usedMacros = self.m_usedMacros) := by
  rw [(addMacroAsSymbol_frame _ _ _ _ _).1, (addMacroAsSymbol_frame _ _ _ _ _).2.1]
  unfold CollectMacrosPreprocessorCallbacks.addUsedMacro
  cases macroDefinition.getMacroInfo with
  | none => exact ⟨fun h => absurd h (by decide), fun _ => ⟨rfl, rfl⟩⟩
  | some info => exact ⟨fun _ => ⟨rfl, rfl⟩, fun h => absurd h (by simp)⟩

/-- C15: each of `Ifndef`, `Ifdef`, `Defined` and `MacroExpands`, in every state, puts the
pair (name of the token, file id of its location) into the used container with the static
`addUsedMacro` and leaves the maybe used container as it is when the macro definition has
a macro info, and puts it into the maybe used container and leaves the used container as
it is when the macro definition has none; the pair is in the container it was put in. -/
theorem C15_usage_signal_chooses_container :
    ∀ callback ∈ [Ifndef, Ifdef, Defined, MacroExpands],
    ∀ (frontEnd : FrontEnd) (self : CollectMacrosPreprocessorCallbacks) (token : Token)
      (macroDefinition : MacroDefinition),
    (macroDefinition.getMacroInfo.isSome = true →
      (callback frontEnd self token macroDefinition).m_usedMacros =
        ClangBackEnd.addUsedMacro ⟨token.getName, filePathIdOfLocation token.getLocation⟩
          self.m_usedMacros ∧
      (⟨token.getName, filePathIdOfLocation token.getLocation⟩ : UsedMacro) ∈
        (callback frontEnd self token macroDefinition).m_usedMacros ∧
      (callback frontEnd self token macroDefinition).m_maybeUsedMacros =
        self.m_maybeUsedMacros) ∧
    (macroDefinition.getMacroInfo = none →
      (callback frontEnd self token macroDefinition).m_maybeUsedMacros =
        ClangBackEnd.addUsedMacro ⟨token.getName, filePathIdOfLocation token.getLocation⟩
          self.m_maybeUsedMacros ∧
      (⟨token.getName, filePathIdOfLocation token.getLocation⟩ : UsedMacro) ∈
        (callback frontEnd self token macroDefinition).m_maybeUsedMacros ∧
      (callback frontEnd self token macroDefinition).m_usedMacros = self.m_usedMacros) := by
  intro callback hcallback frontEnd self token macroDefinition
  have hbody := usageSignal_usedMacros frontEnd self token macroDefinition
    (firstMacroInfo macroDefinition.getLocalDirective) SymbolType.MacroUsage
  have hall : (macroDefinition.getMacroInfo.isSome = true →
      (Ifndef frontEnd self token macroDefinition).m_usedMacros =
        ClangBackEnd.addUsedMacro ⟨token.getName, filePathIdOfLocation token.getLocation⟩
          self.m_usedMacros ∧
      (⟨token.getName, filePathIdOfLocation token.getLocation⟩ : UsedMacro) ∈
        (Ifndef frontEnd self token macroDefinition).m_usedMacros ∧
      (Ifndef frontEnd self token macroDefinition).m_maybeUsedMacros =
        self.m_maybeUsedMacros) ∧
    (macroDefinition.getMacroInfo = none →
      (Ifndef frontEnd self token macroDefinition).m_maybeUsedMacros =
        ClangBackEnd.addUsedMacro ⟨token.getName, filePathIdOfLocation token.getLocation⟩
          self.m_maybeUsedMacros ∧
      (⟨token.getName, filePathIdOfLocation token.getLocation⟩ : UsedMacro) ∈
        (Ifndef frontEnd self token macroDefinition).m_maybeUsedMacros ∧
      (Ifndef frontEnd self token macroDefinition).m_usedMacros = self.m_usedMacros) := by
    constructor
    · intro hsome
      obtain ⟨h1, h2⟩ := hbody.1 hsome
      refine ⟨h1, ?_, h2⟩
      have h3 : (Ifndef frontEnd self token macroDefinition).m_usedMacros =
          ClangBackEnd.addUsedMacro ⟨token.getName, filePathIdOfLocation token.getLocation⟩
            self.m_usedMacros := h1
      rw [h3]
      exact mem_addUsedMacro_self _ _
    · intro hnone
      obtain ⟨h1, h2⟩ := hbody.2 hnone
      refine ⟨h1, ?_, h2⟩
      have h3 : (Ifndef frontEnd self token macroDefinition).m_maybeUsedMacros =
          ClangBackEnd.addUsedMacro ⟨token.getName, filePathIdOfLocation token.getLocation⟩
            self.m_maybeUsedMacros := h1
      rw [h3]
      exact mem_addUsedMacro_self _ _
  simp only [List.mem_cons, List.mem_singleton, List.not_mem_nil, or_false] at hcallback
  rcases hcallback with h | h | h | h <;> rw [h] <;> exact hall

/-- C15, at a concrete input: `Ifdef` of an identifier without definition, then
`MacroExpands` of a defined one, from the empty object. -/
theorem C15_usage_signal_chooses_container_witness :
    (Ifdef (frontEndWithGuard "G") initial (sampleToken "U" 1 1) noDefinition).m_maybeUsedMacros
      = [⟨"U", ⟨1⟩⟩] ∧
    (Ifdef (frontEndWithGuard "G") initial (sampleToken "U" 1 1) noDefinition).m_usedMacros
      = [] ∧
    (⟨"X", ⟨1⟩⟩ : UsedMacro) ∈
      (MacroExpands (frontEndWithGuard "G") initial (sampleToken "X" 1 2)
        (liveDefinition 100)).m_usedMacros :=
  ⟨((C15_usage_signal_chooses_container Ifdef (by simp) (frontEndWithGuard "G") initial
      (sampleToken "U" 1 1) noDefinition).2 rfl).1,
   ((C15_usage_signal_chooses_container Ifdef (by simp) (frontEndWithGuard "G") initial
      (sampleToken "U" 1 1) noDefinition).2 rfl).2.2,
   ((C15_usage_signal_chooses_container MacroExpands (by simp) (frontEndWithGuard "G") initial
      (sampleToken "X" 1 2) (liveDefinition 100)).1 rfl).2.1⟩

/-- C16: `addMacroAsSymbol` returns the object as it was, so with the same symbol map and
the same location entries, when the macro info is null, when the location of the name
token is not a file position, or when the file id of that location is not valid. -/
theorem C16_addMacroAsSymbol_skips_unresolvable (frontEnd : FrontEnd)
    (self : CollectMacrosPreprocessorCallbacks) (token : Token) (macroInfo : Option MacroInfo)
    (symbolType : SymbolType)
    (h : macroInfo = none ∨ token.getLocation.isFileID = false ∨
      (filePathIdOfLocation token.getLocation).isValid = false) :
    addMacroAsSymbol frontEnd self token macroInfo symbolType = self ∧
    (addMacroAsSymbol frontEnd self token macroInfo symbolType).m_symbolEntries =
      self.m_symbolEntries ∧
    (addMacroAsSymbol frontEnd self token macroInfo symbolType).m_sourceLocationEntries =
      self.m_sourceLocationEntries := by
  have hself : addMacroAsSymbol frontEnd self token macroInfo symbolType = self := by
    unfold addMacroAsSymbol
    cases macroInfo with
    | none => rfl
    | some info =>
      rcases h with h | h | h
      · exact absurd h (by simp)
      · simp only [h]
        rfl
      · simp only [h]
        split <;> rfl
  rw [hself]
  exact ⟨rfl, rfl, rfl⟩

/-- C16, at a concrete input: a definition whose name token is inside a macro expansion,
a use without resolvable definition, and a token whose location resolves to no file. -/
theorem C16_addMacroAsSymbol_skips_unresolvable_witness :
    addMacroAsSymbol (frontEndWithGuard "G") initial
        ⟨"X", ⟨false, some ⟨⟨1⟩, 0, 0⟩, 1, 1⟩⟩ (some ⟨100, false⟩)
        SymbolType.MacroDefinition = initial ∧
    addMacroAsSymbol (frontEndWithGuard "G") initial (sampleToken "X" 1 1) none
        SymbolType.MacroUsage = initial ∧
    addMacroAsSymbol (frontEndWithGuard "G") initial ⟨"X", ⟨true, none, 1, 1⟩⟩
        (some ⟨100, false⟩) SymbolType.MacroDefinition = initial :=
  ⟨(C16_addMacroAsSymbol_skips_unresolvable (frontEndWithGuard "G") initial
      ⟨"X", ⟨false, some ⟨⟨1⟩, 0, 0⟩, 1, 1⟩⟩ (some ⟨100, false⟩) SymbolType.MacroDefinition
      (Or.inr (Or.inl rfl))).1,
   (C16_addMacroAsSymbol_skips_unresolvable (frontEndWithGuard "G") initial
      (sampleToken "X" 1 1) none SymbolType.MacroUsage (Or.inl rfl)).1,
   (C16_addMacroAsSymbol_skips_unresolvable (frontEndWithGuard "G") initial
      ⟨"X", ⟨true, none, 1, 1⟩⟩ (some ⟨100, false⟩) SymbolType.MacroDefinition
      (Or.inr (Or.inr (by decide)))).1⟩

/-- C17: `filterOutHeaderGuards` leaves in the maybe used container exactly the entries
whose name the front end does not flag as used for a header guard, in their order, so the
result is a sublist of the container and an entry whose name has no macro info at the end
of the unit is kept; the used container is not changed. -/
theorem C17_filterOutHeaderGuards_keeps_unflagged :
    ∀ (frontEnd : FrontEnd) (self : CollectMacrosPreprocessorCallbacks),
    (filterOutHeaderGuards frontEnd self).m_maybeUsedMacros =
      self.m_maybeUsedMacros.filter
        (fun usedMacro => !isHeaderGuard frontEnd usedMacro.macroName) ∧
    (filterOutHeaderGuards frontEnd self).m_maybeUsedMacros.Sublist self.m_maybeUsedMacros ∧
    (∀ usedMacro ∈ self.m_maybeUsedMacros,
      frontEnd.getMacroInfo usedMacro.macroName = none →
      usedMacro ∈ (filterOutHeaderGuards frontEnd self).m_maybeUsedMacros) ∧
    (filterOutHeaderGuards frontEnd self).m_usedMacros = self.m_usedMacros := by
  intro frontEnd self
  have hfilter : (filterOutHeaderGuards frontEnd self).m_maybeUsedMacros =
      self.m_maybeUsedMacros.filter
        (fun usedMacro => !isHeaderGuard frontEnd usedMacro.macroName) := by
    rw [filterOutHeaderGuards_maybeUsedMacros]
    apply List.filter_congr
    intro usedMacro _
    exact notHeaderGuard_eq frontEnd usedMacro
  refine ⟨hfilter, ?_, ?_, rfl⟩
  · rw [hfilter]
    exact List.filter_sublist _
  · intro usedMacro hmem hnone
    rw [hfilter]
    refine List.mem_filter.mpr ⟨hmem, ?_⟩
    simp [isHeaderGuard, hnone]

/-- C17, at a concrete input: `FOO_H` is flagged, `BAR` has no macro info; of the maybe
used entries `BAR` and `FOO_H` only `BAR` is kept. -/
theorem C17_filterOutHeaderGuards_keeps_unflagged_witness :
    (filterOutHeaderGuards (frontEndWithGuard "FOO_H")
      { initial with m_maybeUsedMacros := [⟨"BAR", ⟨1⟩⟩, ⟨"FOO_H", ⟨1⟩⟩] }).m_maybeUsedMacros =
      [⟨"BAR", ⟨1⟩⟩] ∧
    (⟨"BAR", ⟨1⟩⟩ : UsedMacro) ∈
      (filterOutHeaderGuards (frontEndWithGuard "FOO_H")
        { initial with m_maybeUsedMacros := [⟨"BAR", ⟨1⟩⟩, ⟨"FOO_H", ⟨1⟩⟩] }).m_maybeUsedMacros :=
  ⟨by decide,
   (C17_filterOutHeaderGuards_keeps_unflagged (frontEndWithGuard "FOO_H")
      { initial with m_maybeUsedMacros := [⟨"BAR", ⟨1⟩⟩, ⟨"FOO_H", ⟨1⟩⟩] }).2.2.1
        ⟨"BAR", ⟨1⟩⟩ (by decide) (by decide)⟩

/-! ## Repeated inclusion -/

theorem deliver_InclusionDirective_found (frontEnd : FrontEnd)
    (self : CollectMacrosPreprocessorCallbacks) (hashLocation : SourceLocation)
    (file : FileEntry) (hclear : self.m_skipInclude = false) :
    (deliver frontEnd self (Event.InclusionDirective hashLocation (some file))).m_sourceDependencies
      = self.m_sourceDependencies ++ [⟨filePathIdOfLocation hashLocation, file.filePathId⟩] ∧
    (deliver frontEnd self (Event.InclusionDirective hashLocation (some file))).m_skipInclude
      = false := by
  constructor
  · simp only [deliver, InclusionDirective, hclear]
    rfl
  · rfl

/-- C18: with the suppression flag clear, an `InclusionDirective` whose file was found
puts exactly one edge (file of the location of the directive, included file) at the end
of the dependencies, whether or not an equal edge is there; and `n` such directives in
a row put `n` equal edges at the end. -/
theorem C18_inclusion_appends_one_edge (frontEnd : FrontEnd)
    (self : CollectMacrosPreprocessorCallbacks) (hashLocation : SourceLocation)
    (file : FileEntry) (hclear : self.m_skipInclude = false) :
    (self.InclusionDirective hashLocation (some file)).m_sourceDependencies =
      self.m_sourceDependencies ++ [⟨filePathIdOfLocation hashLocation, file.filePathId⟩] ∧
    ∀ n : Nat,
      (deliverAll frontEnd self
        (List.replicate n (Event.InclusionDirective hashLocation
          (some file)))).m_sourceDependencies =
        self.m_sourceDependencies ++
          List.replicate n ⟨filePathIdOfLocation hashLocation, file.filePathId⟩ := by
  constructor
  · exact (deliver_InclusionDirective_found frontEnd self hashLocation file hclear).1
  · intro n
    induction n generalizing self with
    | zero => simp [deliverAll]
    | succ n ih =>
      obtain ⟨hdeps, hflag⟩ :=
        deliver_InclusionDirective_found frontEnd self hashLocation file hclear
      have hstep : deliverAll frontEnd self
          (List.replicate (n + 1) (Event.InclusionDirective hashLocation (some file))) =
          deliverAll frontEnd
            (deliver frontEnd self (Event.InclusionDirective hashLocation (some file)))
            (List.replicate n (Event.InclusionDirective hashLocation (some file))) := rfl
      rw [hstep, ih _ hflag, hdeps, List.append_assoc, List.singleton_append,
        List.replicate_succ]

/-- C18, at a concrete input: file 1 includes file 2 twice. -/
theorem C18_inclusion_appends_one_edge_witness :
    (deliverAll (frontEndWithGuard "G") initial
      (List.replicate 2 (Event.InclusionDirective (sampleLocation 1 1)
        (some ⟨⟨2⟩, 10, 20⟩)))).m_sourceDependencies =
      [] ++ List.replicate 2 ⟨⟨1⟩, ⟨2⟩⟩ :=
  (C18_inclusion_appends_one_edge (frontEndWithGuard "G") initial (sampleLocation 1 1)
    ⟨⟨2⟩, 10, 20⟩ rfl).2 2

/-! ## Symbol entries are never replaced -/

theorem findSymbolEntry_append {symbolEntries : SymbolEntries} {globalId : SymbolIndex}
    {entry : SymbolEntry} (more : SymbolEntries)
    (h : findSymbolEntry symbolEntries globalId = some entry) :
    findSymbolEntry (symbolEntries ++ more) globalId = some entry := by
  induction symbolEntries with
  | nil => simp [findSymbolEntry] at h
  | cons head rest ih =>
    obtain ⟨key, value⟩ := head
    simp only [List.cons_append, findSymbolEntry] at h ⊢
    by_cases hk : key = globalId
    · rw [if_pos hk] at h ⊢
      exact h
    · rw [if_neg hk] at h ⊢
      exact ih h

theorem find_of_mem_symbolKeys {symbolEntries : SymbolEntries} {globalId : SymbolIndex}
    (h : globalId ∈ symbolKeys symbolEntries) :
    ∃ entry, findSymbolEntry symbolEntries globalId = some entry := by
  induction symbolEntries with
  | nil => simp [symbolKeys] at h
  | cons head rest ih =>
    obtain ⟨key, value⟩ := head
    simp only [findSymbolEntry]
    by_cases hk : key = globalId
    · exact ⟨value, by rw [if_pos hk]⟩
    · rw [if_neg hk]
      simp only [symbolKeys, List.map_cons, List.mem_cons] at h
      rcases h with h | h
      · exact absurd h.symm hk
      · exact ih h

theorem addMacroAsSymbol_keeps_entry (frontEnd : FrontEnd)
    (self : CollectMacrosPreprocessorCallbacks) (token : Token) (macroInfo : Option MacroInfo)
    (symbolType : SymbolType) {globalId : SymbolIndex} {entry : SymbolEntry}
    (h : findSymbolEntry self.m_symbolEntries globalId = some entry) :
    findSymbolEntry (addMacroAsSymbol frontEnd self token macroInfo symbolType).m_symbolEntries
      globalId = some entry := by
  unfold addMacroAsSymbol
  cases macroInfo with
  | none => exact h
  | some info =>
    simp only
    split
    · split
      · simp only
        cases hfind : findSymbolEntry self.m_symbolEntries (toSymbolIndex info) with
        | some found => exact h
        | none =>
          cases husr : frontEnd.generateUSR token.getName token.getLocation with
          | none => exact h
          | some usr =>
            simp only [emplaceSymbolEntry, hfind]
            exact findSymbolEntry_append _ h
      · exact h
    · exact h

theorem addMacroAsSymbol_of_present (frontEnd : FrontEnd)
    (self : CollectMacrosPreprocessorCallbacks) (token : Token) (info : MacroInfo)
    (symbolType : SymbolType) {entry : SymbolEntry}
    (h : findSymbolEntry self.m_symbolEntries (toSymbolIndex info) = some entry) :
    (addMacroAsSymbol frontEnd self token (some info) symbolType).m_symbolEntries =
      self.m_symbolEntries := by
  unfold addMacroAsSymbol
  simp only [h]
  split
  · split <;> rfl
  · rfl

theorem addMacroAsSymbol_appends_locations (frontEnd : FrontEnd)
    (self : CollectMacrosPreprocessorCallbacks) (token : Token) (macroInfo : Option MacroInfo)
    (symbolType : SymbolType) :
    ∃ appended,
      (addMacroAsSymbol frontEnd self token macroInfo symbolType).m_sourceLocationEntries =
        self.m_sourceLocationEntries ++ appended := by
  unfold addMacroAsSymbol
  cases macroInfo with
  | none => exact ⟨[], (List.append_nil _).symm⟩
  | some info =>
    simp only
    split
    · split
      · exact ⟨_, rfl⟩
      · exact ⟨[], (List.append_nil _).symm⟩
    · exact ⟨[], (List.append_nil _).symm⟩

theorem deliver_keeps_entry (frontEnd : FrontEnd) (self : CollectMacrosPreprocessorCallbacks)
    (event : Event) {globalId : SymbolIndex} {entry : SymbolEntry}
    (h : findSymbolEntry self.m_symbolEntries globalId = some entry) :
    findSymbolEntry (deliver frontEnd self event).m_symbolEntries globalId = some entry := by
  have hused : ∀ token macroDefinition,
      findSymbolEntry (self.addUsedMacro token macroDefinition).m_symbolEntries globalId =
        some entry := by
    intro token macroDefinition
    rw [(addUsedMacro_frame self token macroDefinition).1]
    exact h
  cases event with
  | FileChanged sourceLocation reason =>
    simp only [deliver, FileChanged]
    split
    · split
      · unfold addSourceFile
        simp only
        split <;> exact h
      · exact h
    · exact h
  | InclusionDirective hashLocation file =>
    simp only [deliver, InclusionDirective]
    split
    · cases file <;> exact h
    · exact h
  | FileNotFound => exact h
  | Ifndef token macroDefinition => exact addMacroAsSymbol_keeps_entry _ _ _ _ _ (hused _ _)
  | Ifdef token macroDefinition => exact addMacroAsSymbol_keeps_entry _ _ _ _ _ (hused _ _)
  | Defined token macroDefinition => exact addMacroAsSymbol_keeps_entry _ _ _ _ _ (hused _ _)
  | MacroDefined token macroDirective => exact addMacroAsSymbol_keeps_entry _ _ _ _ _ h
  | MacroUndefined token macroDefinition => exact addMacroAsSymbol_keeps_entry _ _ _ _ _ h
  | MacroExpands token macroDefinition =>
    exact addMacroAsSymbol_keeps_entry _ _ _ _ _ (hused _ _)
  | EndOfMainFile => exact h

theorem addMacroAsSymbol_of_absent (frontEnd : FrontEnd)
    (self : CollectMacrosPreprocessorCallbacks) (token : Token) (info : MacroInfo)
    (symbolType : SymbolType) (hvalid : token.atValidFilePosition = true)
    (hfind : findSymbolEntry self.m_symbolEntries (toSymbolIndex info) = none) :
    (addMacroAsSymbol frontEnd self token (some info) symbolType).m_symbolEntries =
      match frontEnd.generateUSR token.getName token.getLocation with
      | some usr => self.m_symbolEntries ++ [(toSymbolIndex info, ⟨usr, token.getName⟩)]
      | none => self.m_symbolEntries := by
  unfold Token.atValidFilePosition at hvalid
  rw [Bool.and_eq_true] at hvalid
  unfold addMacroAsSymbol
  simp only [hvalid.1, hvalid.2, if_true, hfind]
  cases frontEnd.generateUSR token.getName token.getLocation with
  | none => rfl
  | some usr => simp only [emplaceSymbolEntry, hfind]

/-- C20, the claim as stated fails: `generateUSR` fails for the definition of `X` on line
1, so the first recorded occurrence of the symbol id 100 leaves the symbol map empty; the
use of `X` on line 2, a later occurrence of the same symbol id, does not only append a
location entry, it also puts the symbol entry into the map. -/
theorem C20_later_occurrence_adds_the_entry :
    (deliverAll frontEndWithoutUSROnFirstLine initial
      [Event.MacroDefined (sampleToken "X" 1 1) (some (sampleDirective 100))]).m_symbolEntries
      = [] ∧
    (deliverAll frontEndWithoutUSROnFirstLine initial
      [Event.MacroDefined (sampleToken "X" 1 1)
        (some (sampleDirective 100))]).m_sourceLocationEntries
      = [⟨100, ⟨1⟩, ⟨1, 1⟩, SymbolType.MacroDefinition⟩] ∧
    (deliverAll frontEndWithoutUSROnFirstLine initial
      [Event.MacroDefined (sampleToken "X" 1 1) (some (sampleDirective 100)),
       Event.MacroExpands (sampleToken "X" 1 2) (liveDefinition 100)]).m_symbolEntries
      = [(100, ⟨"X", "X"⟩)] := by
  decide

/-- C20 (amended): `addMacroAsSymbol` keeps every symbol entry that is in the map (same
unique reference, same name) and so removes no key, and the location entries only grow at
the end. When the symbol id of the call has an entry, the map is not changed at all and,
at a valid file position, exactly one location entry is appended. When the symbol id has
no entry yet, at a valid file position, the call appends one location entry and adds the
symbol entry if `generateUSR` succeeds and leaves the map as it is if `generateUSR` fails:
the entry of a symbol id is fixed by the first occurrence at which `generateUSR` succeeds.
Along a whole sequence of events an entry, once recorded, stays as it is. -/
theorem C20_symbol_entries_are_kept :
    (∀ (frontEnd : FrontEnd) (self : CollectMacrosPreprocessorCallbacks) (token : Token)
        (macroInfo : Option MacroInfo) (symbolType : SymbolType),
      (∀ globalId entry, findSymbolEntry self.m_symbolEntries globalId = some entry →
        findSymbolEntry
          (addMacroAsSymbol frontEnd self token macroInfo symbolType).m_symbolEntries
          globalId = some entry) ∧
      (∀ globalId ∈ symbolKeys self.m_symbolEntries,
        globalId ∈ symbolKeys
          (addMacroAsSymbol frontEnd self token macroInfo symbolType).m_symbolEntries) ∧
      (∀ info entry, macroInfo = some info →
        findSymbolEntry self.m_symbolEntries (toSymbolIndex info) = some entry →
        (addMacroAsSymbol frontEnd self token macroInfo symbolType).m_symbolEntries =
          self.m_symbolEntries) ∧
      (∃ appended,
        (addMacroAsSymbol frontEnd self token macroInfo symbolType).m_sourceLocationEntries =
          self.m_sourceLocationEntries ++ appended)) ∧
    (∀ (frontEnd : FrontEnd) (self : CollectMacrosPreprocessorCallbacks) (token : Token)
        (info : MacroInfo) (symbolType : SymbolType),
      token.atValidFilePosition = true →
      (addMacroAsSymbol frontEnd self token (some info) symbolType).m_sourceLocationEntries =
        self.m_sourceLocationEntries ++
          [⟨toSymbolIndex info, filePathIdOfLocation token.getLocation,
            lineColum token.getLocation, symbolType⟩] ∧
      (findSymbolEntry self.m_symbolEntries (toSymbolIndex info) = none →
        (addMacroAsSymbol frontEnd self token (some info) symbolType).m_symbolEntries =
          match frontEnd.generateUSR token.getName token.getLocation with
          | some usr => self.m_symbolEntries ++ [(toSymbolIndex info, ⟨usr, token.getName⟩)]
          | none => self.m_symbolEntries)) ∧
    (∀ (frontEnd : FrontEnd) (self : CollectMacrosPreprocessorCallbacks) (events : List Event)
        (globalId : SymbolIndex) (entry : SymbolEntry),
      findSymbolEntry self.m_symbolEntries globalId = some entry →
      findSymbolEntry (deliverAll frontEnd self events).m_symbolEntries globalId =
        some entry) := by
  refine ⟨?_, ?_, ?_⟩
  · intro frontEnd self token macroInfo symbolType
    refine ⟨?_, ?_, ?_, addMacroAsSymbol_appends_locations _ _ _ _ _⟩
    · exact fun globalId entry h => addMacroAsSymbol_keeps_entry _ _ _ _ _ h
    · intro globalId hkey
      obtain ⟨entry, hentry⟩ := find_of_mem_symbolKeys hkey
      exact mem_symbolKeys_of_find (addMacroAsSymbol_keeps_entry _ _ _ _ _ hentry)
    · intro info entry hinfo hfind
      rw [hinfo]
      exact addMacroAsSymbol_of_present _ _ _ _ _ hfind
  · intro frontEnd self token info symbolType hvalid
    exact ⟨addMacroAsSymbol_locations_of_valid _ _ _ _ _ hvalid,
      fun hfind => addMacroAsSymbol_of_absent _ _ _ _ _ hvalid hfind⟩
  · intro frontEnd self events
    induction events generalizing self with
    | nil => exact fun globalId entry h => h
    | cons event events ih =>
      intro globalId entry h
      exact ih (deliver frontEnd self event) globalId entry
        (deliver_keeps_entry frontEnd self event h)

/-- C20 (amended), at a concrete input: `X` is defined in file 1 and recorded with the
name `X`, and a later occurrence under the same symbol id with the token `Y` leaves the
entry as it is; with a `generateUSR` that fails on line 1, the use of `X` on line 2 adds
the entry that the definition on line 1 could not add. -/
theorem C20_symbol_entries_are_kept_witness :
    findSymbolEntry
      (MacroDefined (frontEndWithGuard "G") initial (sampleToken "X" 1 1)
        (some (sampleDirective 100))).m_symbolEntries 100 = some ⟨"X", "X"⟩ ∧
    findSymbolEntry
      (addMacroAsSymbol (frontEndWithGuard "G")
        (MacroDefined (frontEndWithGuard "G") initial (sampleToken "X" 1 1)
          (some (sampleDirective 100)))
        (sampleToken "Y" 1 2) (some ⟨100, false⟩) SymbolType.MacroUsage).m_symbolEntries 100 =
      some ⟨"X", "X"⟩ ∧
    (addMacroAsSymbol frontEndWithoutUSROnFirstLine
        (MacroDefined frontEndWithoutUSROnFirstLine initial (sampleToken "X" 1 1)
          (some (sampleDirective 100)))
        (sampleToken "X" 1 2) (some ⟨100, false⟩) SymbolType.MacroUsage).m_symbolEntries =
      [] ++ [(100, ⟨"X", "X"⟩)] :=
  ⟨by decide,
   (C20_symbol_entries_are_kept.1 (frontEndWithGuard "G")
      (MacroDefined (frontEndWithGuard "G") initial (sampleToken "X" 1 1)
        (some (sampleDirective 100)))
      (sampleToken "Y" 1 2) (some ⟨100, false⟩) SymbolType.MacroUsage).1 100 ⟨"X", "X"⟩
      (by decide),
   ((C20_symbol_entries_are_kept.2.1 frontEndWithoutUSROnFirstLine
      (MacroDefined frontEndWithoutUSROnFirstLine initial (sampleToken "X" 1 1)
        (some (sampleDirective 100)))
      (sampleToken "X" 1 2) ⟨100, false⟩ SymbolType.MacroUsage (by decide)).2 (by decide))⟩

end ClangBackEnd
